import Mathlib

/-!
# ldap-operator: bulk synchroniser and per-identity reconciler

A shallow embedding of `internal/controller/ldap_sync.go` and
`internal/controller/ldapuser_controller.go`.  The Kubernetes client and the
LDAP connection are external collaborators: they are modelled as an
environment `Env σ` of state-passing operations, so that every function of the
controller is translated once and can be run against

* `recording e`, which logs every call together with its answer,
* `scriptedEnv`, whose answers are given by a table, and
* `clusterEnv`, a concrete object store keyed by kind, namespace and name, in which
  deleting a namespace deletes what lives in it.
-/

namespace LdapOperator

/-! ## Data model -/

/-- API errors, classified the way `k8s.io/apimachinery/pkg/api/errors` does. -/
inductive Err where
  | alreadyExists
  | notFound
  | other (msg : String)
  deriving DecidableEq, Repr

/-- The test `errors.IsAlreadyExists`. -/
def IsAlreadyExists : Err → Bool
  | .alreadyExists => true
  | _ => false

/-- The test `errors.IsNotFound`. -/
def IsNotFound : Err → Bool
  | .notFound => true
  | _ => false

/-- The fields of `metav1.ObjectMeta` the controller sets. -/
structure ObjectMeta where
  Name : String
  Namespace : String := ""
  deriving DecidableEq, Repr

/-- The struct `LdapUserSpec` of `api/v1alpha1/ldapuser_types.go`. -/
structure LdapUserSpec where
  Username : String
  deriving DecidableEq, Repr

/-- The struct `LdapUser` of `api/v1alpha1/ldapuser_types.go`; `ObjectMeta` is embedded. -/
structure LdapUser extends ObjectMeta where
  Spec : LdapUserSpec
  deriving DecidableEq, Repr

/-- The fields of `corev1.Container` the controller sets. -/
structure Container where
  Name : String
  Image : String
  Command : List String
  deriving DecidableEq, Repr

/-- The kinds of object the controller reads or writes. -/
inductive Kind where
  | Namespace
  | ConfigMap
  | Pod
  | LdapUser
  deriving DecidableEq, Repr

/-- An object handed to `Create` or `Delete`. -/
inductive Object where
  | ns (om : ObjectMeta)
  | configMap (om : ObjectMeta) (Data : List (String × String))
  | pod (om : ObjectMeta) (Containers : List Container)
  | ldapUser (u : LdapUser)
  deriving DecidableEq, Repr

/-- The kind of an object. -/
def Object.kind : Object → Kind
  | .ns _ => .Namespace
  | .configMap _ _ => .ConfigMap
  | .pod _ _ => .Pod
  | .ldapUser _ => .LdapUser

/-- The metadata of an object. -/
def Object.om : Object → ObjectMeta
  | .ns om => om
  | .configMap om _ => om
  | .pod om _ => om
  | .ldapUser u => u.toObjectMeta

/-- The key under which the store files an object: kind, namespace and name. -/
def Object.key (o : Object) : Kind × String × String :=
  (o.kind, o.om.Namespace, o.om.Name)

/-- The type `types.NamespacedName` carried by a reconcile request. -/
structure NamespacedName where
  Namespace : String
  Name : String
  deriving DecidableEq, Repr

/-- The type `ctrl.Result`. -/
structure Result where
  Requeue : Bool := false
  RequeueAfter : Nat := 0
  deriving DecidableEq, Repr

/-- The arguments of `ldap.NewSearchRequest`. -/
structure SearchRequest where
  BaseDN : String
  Scope : Nat
  DerefAliases : Nat
  SizeLimit : Nat
  TimeLimit : Nat
  TypesOnly : Bool
  Filter : String
  Attributes : List String
  deriving DecidableEq, Repr

/-- An entry of a search result: its DN and its attributes with their values. -/
structure Entry where
  DN : String
  Attributes : List (String × List String)
  deriving DecidableEq, Repr

/-- The method `Entry.GetAttributeValue`: the first value of the named attribute, or `""`. -/
def Entry.GetAttributeValue (en : Entry) (attr : String) : String :=
  match en.Attributes.find? (fun a => a.1 == attr) with
  | some (_, v :: _) => v
  | _ => ""

/-! ## Constants of `ldapuser_controller.go` -/

def ldapServer : String := "localhost"
def ldapPort : Nat := 1389
def ldapBindDN : String := "cn=admin,dc=example,dc=org"
def ldapBindPasswd : String := "admin"
def baseDN : String := "dc=example,dc=org"

/-- The constant `ldap.ScopeWholeSubtree`. -/
def ScopeWholeSubtree : Nat := 2
/-- The constant `ldap.NeverDerefAliases`. -/
def NeverDerefAliases : Nat := 0

/-- The address `fmt.Sprintf("%s:%d", ldapServer, ldapPort)`. -/
def ldapAddr : String := ldapServer ++ ":" ++ toString ldapPort

/-! ## The environment: Kubernetes client and LDAP connection -/

/-- The operations the controller calls on its collaborators, over a state `σ`. -/
structure Env (σ : Type) where
  Get : NamespacedName → σ → Except Err LdapUser × σ
  Create : Object → σ → Option Err × σ
  Delete : Object → σ → Option Err × σ
  Dial : String → σ → Option Err × σ
  Bind : String → String → σ → Option Err × σ
  Search : SearchRequest → σ → Except Err (List Entry) × σ
  Close : σ → σ
  List : σ → Except Err (List LdapUser) × σ

/-- A call made on the environment. -/
inductive Call where
  | get (key : NamespacedName)
  | list
  | create (o : Object)
  | delete (o : Object)
  | dial (addr : String)
  | bind (dn : String) (passwd : String)
  | search (req : SearchRequest)
  | close
  deriving DecidableEq, Repr

/-- A logged call with the error it was answered with (`none` for success). -/
abbrev Event := Call × Option Err

/-- The error of an `Except` answer. -/
def errOf {α : Type} : Except Err α → Option Err
  | .error e => some e
  | .ok _ => none

/-- The environment `e`, logging every call and its answer, oldest first. -/
def recording {σ : Type} (e : Env σ) : Env (σ × List Event) where
  Get := fun key s =>
    let r := e.Get key s.1
    (r.1, (r.2, s.2 ++ [(Call.get key, errOf r.1)]))
  List := fun s =>
    let r := e.List s.1
    (r.1, (r.2, s.2 ++ [(Call.list, errOf r.1)]))
  Create := fun o s =>
    let r := e.Create o s.1
    (r.1, (r.2, s.2 ++ [(Call.create o, r.1)]))
  Delete := fun o s =>
    let r := e.Delete o s.1
    (r.1, (r.2, s.2 ++ [(Call.delete o, r.1)]))
  Dial := fun addr s =>
    let r := e.Dial addr s.1
    (r.1, (r.2, s.2 ++ [(Call.dial addr, r.1)]))
  Bind := fun dn pw s =>
    let r := e.Bind dn pw s.1
    (r.1, (r.2, s.2 ++ [(Call.bind dn pw, r.1)]))
  Search := fun req s =>
    let r := e.Search req s.1
    (r.1, (r.2, s.2 ++ [(Call.search req, errOf r.1)]))
  Close := fun s => (e.Close s.1, s.2 ++ [(Call.close, none)])

/-- The answers of a scripted environment. -/
structure Script where
  get : NamespacedName → Except Err LdapUser
  list : Except Err (List LdapUser)
  create : Object → Option Err
  delete : Object → Option Err
  dial : Option Err
  bind : Option Err
  search : SearchRequest → Except Err (List Entry)

/-- An environment without state whose answers are read off a script. -/
def scriptedEnv (sc : Script) : Env Unit where
  Get := fun key s => (sc.get key, s)
  List := fun s => (sc.list, s)
  Create := fun o s => (sc.create o, s)
  Delete := fun o s => (sc.delete o, s)
  Dial := fun _ s => (sc.dial, s)
  Bind := fun _ _ s => (sc.bind, s)
  Search := fun req s => (sc.search req, s)
  Close := fun s => s

/-- The directory server seen through one connection. -/
structure Directory where
  dial : Option Err
  bind : Option Err
  search : SearchRequest → Except Err (List Entry)

/-- The objects of a cluster; the store files at most one object per key. -/
abbrev Store := List Object

/-- The `LdapUser` records of a store, in all namespaces. -/
def Store.ldapUsers : Store → List LdapUser
  | [] => []
  | .ldapUser u :: rest => u :: Store.ldapUsers rest
  | _ :: rest => Store.ldapUsers rest

/-- Whether deleting `o` takes `x` with it: `x` is filed under the key of `o`, or `o` is
a namespace and `x` is a namespaced object that lives in it. -/
def Object.goesWith (o x : Object) : Bool :=
  x.key == o.key ||
    (o.kind == Kind.Namespace && x.kind != Kind.Namespace && x.om.Namespace == o.om.Name)

/-- Whether the store holds an object under the key of `o`. -/
def Store.has (st : Store) (o : Object) : Bool :=
  st.any (fun x => x.key == o.key)

/-- A store with at most one object per key. -/
def Store.WF (st : Store) : Prop := (st.map Object.key).Nodup

instance Store.decidableWF (st : Store) : Decidable st.WF :=
  inferInstanceAs (Decidable (st.map Object.key).Nodup)

/-- A store that adds an absent object on `Create` and answers `AlreadyExists` for a
present one, removes a present object on `Delete` and answers `NotFound` for an absent
one, in front of the directory `dir`.  The `Delete` of a namespace takes with it every
namespaced object that lives in that namespace. -/
def clusterEnv (dir : Directory) : Env Store where
  Get := fun key st =>
    match st.ldapUsers.find? (fun u => u.Namespace == key.Namespace && u.Name == key.Name) with
    | some u => (.ok u, st)
    | none => (.error .notFound, st)
  List := fun st => (.ok st.ldapUsers, st)
  Create := fun o st =>
    if st.has o then (some .alreadyExists, st) else (none, st ++ [o])
  Delete := fun o st =>
    if st.has o then (none, st.filter (fun x => !o.goesWith x)) else (some .notFound, st)
  Dial := fun _ st => (dir.dial, st)
  Bind := fun _ _ st => (dir.bind, st)
  Search := fun req st => (dir.search req, st)
  Close := fun st => st

/-! ## Go maps -/

/-- A Go `map[string]V`: its keys, each once, with their values. -/
abbrev GoMap (V : Type) := List (String × V)

/-- The keys of a map. -/
def GoMap.keys {V : Type} (m : GoMap V) : List String := m.map Prod.fst

/-- The test `_, exists := m[k]`. -/
def GoMap.has {V : Type} (m : GoMap V) (k : String) : Bool := decide (k ∈ m.keys)

/-- The assignment `m[k] = v`. -/
def GoMap.set {V : Type} (m : GoMap V) (k : String) (v : V) : GoMap V :=
  if m.has k then m.map (fun p => if p.1 = k then (k, v) else p) else m ++ [(k, v)]

/-! ## `ldapuser_controller.go` -/

/-- The condition `err != nil && !absorbed(err)`: the error that makes the caller return. -/
def errUnless (absorbed : Err → Bool) : Option Err → Option Err
  | some err => if absorbed err then none else some err
  | none => none

/-- The namespace object of `createOrUpdateUserResources` and `deleteUserResources`. -/
def nsObject (ldapUser : LdapUser) : Object :=
  .ns { Name := ldapUser.Spec.Username }

/-- The ConfigMap object of `createOrUpdateUserResources`. -/
def cmObject (ldapUser : LdapUser) : Object :=
  .configMap { Name := ldapUser.Spec.Username ++ "-config", Namespace := ldapUser.Spec.Username }
    [("example.config", "value")]

/-- The Pod object of `createOrUpdateUserResources`. -/
def podObject (ldapUser : LdapUser) : Object :=
  .pod { Name := ldapUser.Spec.Username ++ "-pod", Namespace := "ldap-space" }
    [{ Name := "busybox", Image := "busybox",
       Command := ["sh", "-c", "echo Hello, Kubernetes! && sleep 3600"] }]

/-- The function `createOrUpdateUserResources`. -/
def createOrUpdateUserResources {σ : Type} (e : Env σ) (ldapUser : LdapUser) (s : σ) :
    Option Err × σ :=
  -- Create Namespace
  let r1 := e.Create (nsObject ldapUser) s
  match errUnless IsAlreadyExists r1.1 with
  | some err => (some err, r1.2)
  | none =>
    -- Create ConfigMap
    let r2 := e.Create (cmObject ldapUser) r1.2
    match errUnless IsAlreadyExists r2.1 with
    | some err => (some err, r2.2)
    | none =>
      -- Create Pod
      let r3 := e.Create (podObject ldapUser) r2.2
      match errUnless IsAlreadyExists r3.1 with
      | some err => (some err, r3.2)
      | none => (none, r3.2)

/-- The function `deleteUserResources`. -/
def deleteUserResources {σ : Type} (e : Env σ) (ldapUser : LdapUser) (s : σ) :
    Option Err × σ :=
  -- Delete Namespace
  let r1 := e.Delete (nsObject ldapUser) s
  match errUnless IsNotFound r1.1 with
  | some err => (some err, r1.2)
  | none => (none, r1.2)

/-- The search request of `Reconcile`. -/
def userSearchRequest (ldapUser : LdapUser) : SearchRequest :=
  { BaseDN := baseDN, Scope := ScopeWholeSubtree, DerefAliases := NeverDerefAliases,
    SizeLimit := 0, TimeLimit := 0, TypesOnly := false,
    Filter := "(uid=" ++ ldapUser.Spec.Username ++ ")",
    Attributes := ["dn", "cn", "uid"] }

/-- The part of `Reconcile` that runs between `ldap.Dial` and the deferred `l.Close()`. -/
def reconcileConnected {σ : Type} (e : Env σ) (ldapUser : LdapUser) (s : σ) :
    (Result × Option Err) × σ :=
  let rb := e.Bind ldapBindDN ldapBindPasswd s
  match rb.1 with
  | some err => (({}, some err), rb.2)
  | none =>
    -- Search for the user
    let rs := e.Search (userSearchRequest ldapUser) rb.2
    match rs.1 with
    | .error err => (({}, some err), rs.2)
    | .ok entries =>
      if entries.length = 0 then
        -- Delete resources associated with the user; the returned error is dropped
        let rd := deleteUserResources e ldapUser rs.2
        (({}, none), rd.2)
      else
        -- Create or update resources associated with the user; the returned error is dropped
        let rc := createOrUpdateUserResources e ldapUser rs.2
        (({}, none), rc.2)

/-- The function `Reconcile`. -/
def Reconcile {σ : Type} (e : Env σ) (req : NamespacedName) (s : σ) :
    (Result × Option Err) × σ :=
  -- Fetch the LDAPUser instance
  let rg := e.Get req s
  match rg.1 with
  | .error err =>
    if IsNotFound err then (({}, none), rg.2) else (({}, some err), rg.2)
  | .ok ldapUser =>
    -- Connect to LDAP
    let rd := e.Dial ldapAddr rg.2
    match rd.1 with
    | some err => (({}, some err), rd.2)
    | none =>
      let r := reconcileConnected e ldapUser rd.2
      (r.1, e.Close r.2)

/-! ## `ldap_sync.go` -/

/-- The search request of `retrieveLdapUsers`. -/
def allUsersSearchRequest : SearchRequest :=
  { BaseDN := baseDN, Scope := ScopeWholeSubtree, DerefAliases := NeverDerefAliases,
    SizeLimit := 0, TimeLimit := 0, TypesOnly := false,
    Filter := "(objectClass=inetOrgPerson)",
    Attributes := ["uid"] }

/-- The loop of `retrieveLdapUsers` that collects the `uid` of every entry in a map. -/
def collectUids (entries : List Entry) : GoMap Unit :=
  entries.foldl (fun m entry => m.set (entry.GetAttributeValue "uid") ()) []

/-- The function `retrieveLdapUsers`. -/
def retrieveLdapUsers {σ : Type} (e : Env σ) (s : σ) : Except Err (GoMap Unit) × σ :=
  -- Establish connection to LDAP server
  let rd := e.Dial ldapAddr s
  match rd.1 with
  | some err => (.error err, rd.2)
  | none =>
    -- Bind to LDAP server with admin credentials
    let rb := e.Bind ldapBindDN ldapBindPasswd rd.2
    match rb.1 with
    | some err => (.error err, e.Close rb.2)
    | none =>
      -- Search LDAP directory for users
      let rs := e.Search allUsersSearchRequest rb.2
      match rs.1 with
      | .error err => (.error err, e.Close rs.2)
      | .ok entries => (.ok (collectUids entries), e.Close rs.2)

/-- The loop of `SyncLdapUsers` that builds `existingLDAPUserMap`. -/
def existingMap (items : List LdapUser) : GoMap LdapUser :=
  items.foldl (fun m item => m.set item.Name item) []

/-- The record `SyncLdapUsers` creates for a user name. -/
def newLDAPUser (username : String) : LdapUser :=
  { Name := username, Namespace := "ldap-space", Spec := { Username := username } }

/-- The first loop of `SyncLdapUsers`, over the keys of `ldapUsers` in the order the
runtime enumerates them. -/
def createLoop {σ : Type} (e : Env σ) (existingLDAPUserMap : GoMap LdapUser) :
    List String → σ → Option Err × σ
  | [], s => (none, s)
  | username :: rest, s =>
    -- Check if LDAPUser resource already exists
    if !existingLDAPUserMap.has username then
      let rc := e.Create (.ldapUser (newLDAPUser username)) s
      match rc.1 with
      | some err => (some err, rc.2)
      | none => createLoop e existingLDAPUserMap rest rc.2
    else createLoop e existingLDAPUserMap rest s

/-- The second loop of `SyncLdapUsers`, over `existingLDAPUsers.Items`. -/
def deleteLoop {σ : Type} (e : Env σ) (ldapUsers : GoMap Unit) :
    List LdapUser → σ → Option Err × σ
  | [], s => (none, s)
  | ldapUser :: rest, s =>
    if !ldapUsers.has ldapUser.Spec.Username then
      let rd := e.Delete (.ldapUser ldapUser) s
      match rd.1 with
      | some err => (some err, rd.2)
      | none => deleteLoop e ldapUsers rest rd.2
    else deleteLoop e ldapUsers rest s

/-- The function `SyncLdapUsers`.  A Go `range` over a map enumerates its keys in an
order the runtime chooses: `order` is that choice. -/
def SyncLdapUsers {σ : Type} (e : Env σ) (order : List String → List String) (s : σ) :
    Option Err × σ :=
  -- Connect to LDAP and retrieve user data
  let rr := retrieveLdapUsers e s
  match rr.1 with
  | .error err => (some err, rr.2)
  | .ok ldapUsers =>
    -- List existing LDAPUser resources in Kubernetes
    let rl := e.List rr.2
    match rl.1 with
    | .error err => (some err, rl.2)
    | .ok items =>
      -- Reconcile LDAPUser resources
      let rc := createLoop e (existingMap items) (order ldapUsers.keys) rl.2
      match rc.1 with
      | some err => (some err, rc.2)
      | none =>
        -- Delete LDAPUser resources that no longer exist in LDAP
        deleteLoop e ldapUsers items rc.2

/-! ## Reading a log -/

/-- A `Create` or `Delete` call on the store. -/
inductive Mutation where
  | create (o : Object)
  | delete (o : Object)
  deriving DecidableEq, Repr

/-- The call a mutation stands for. -/
def Mutation.call : Mutation → Call
  | .create o => .create o
  | .delete o => .delete o

/-- The object a mutation is about. -/
def Mutation.object : Mutation → Object
  | .create o => o
  | .delete o => o

/-- Whether a call is a `Create` or a `Delete`. -/
def Call.isMutation : Call → Bool
  | .create _ => true
  | .delete _ => true
  | _ => false

/-- The `Create` and `Delete` events of a log, in order. -/
def mutations (log : List Event) : List Event :=
  log.filter (fun ev => ev.1.isMutation)

/-- The event of a mutation that was answered with success. -/
def Mutation.ok (m : Mutation) : Event := (m.call, none)

/-- One mutation run against the environment. -/
def perform {σ : Type} (e : Env σ) : Mutation → σ → Option Err × σ
  | .create o, s => e.Create o s
  | .delete o, s => e.Delete o s

/-- A list of mutations run in order, stopping at the first error. -/
def issue {σ : Type} (e : Env σ) : List Mutation → σ → Option Err × σ
  | [], s => (none, s)
  | m :: ms, s =>
    match (perform e m s).1 with
    | some err => (some err, (perform e m s).2)
    | none => issue e ms (perform e m s).2

/-- The events `issue` leaves in a log. -/
def issued {σ : Type} (e : Env σ) : List Mutation → σ → List Event
  | [], _ => []
  | m :: ms, s =>
    match (perform e m s).1 with
    | some err => [(m.call, some err)]
    | none => (m.call, none) :: issued e ms (perform e m s).2

/-- The creations `SyncLdapUsers` plans: the enumerated keys missing from the map. -/
def planCreates (existingLDAPUserMap : GoMap LdapUser) (keys : List String) : List Mutation :=
  (keys.filter (fun k => !existingLDAPUserMap.has k)).map
    (fun k => Mutation.create (.ldapUser (newLDAPUser k)))

/-- The deletions `SyncLdapUsers` plans: the listed records whose user name is no key. -/
def planDeletes (ldapUsers : GoMap Unit) (items : List LdapUser) : List Mutation :=
  (items.filter (fun u => !ldapUsers.has u.Spec.Username)).map
    (fun u => Mutation.delete (.ldapUser u))

/-- The mutations `SyncLdapUsers` plans from the directory keys and the listed records. -/
def plan (order : List String → List String) (ldapUsers : GoMap Unit)
    (items : List LdapUser) : List Mutation :=
  planCreates (existingMap items) (order ldapUsers.keys) ++ planDeletes ldapUsers items

/-! ## Concrete collaborators -/

/-- A directory entry whose `uid` is `uid`. -/
def userEntry (uid : String) : Entry :=
  { DN := "uid=" ++ uid ++ "," ++ baseDN, Attributes := [("uid", [uid])] }

/-- A script: the directory holds `uids`, the registry lists `items`, and `Create` and
`Delete` answer as given. -/
def scriptOf (uids : List String) (items : List LdapUser)
    (create delete : Object → Option Err) : Script :=
  { get := fun key =>
      match items.find? (fun u => u.Namespace == key.Namespace && u.Name == key.Name) with
      | some u => .ok u
      | none => .error .notFound
    list := .ok items
    create := create
    delete := delete
    dial := none
    bind := none
    search := fun _ => .ok (uids.map userEntry) }

/-- A directory that accepts the connection and answers every search with `uids`. -/
def directoryOf (uids : List String) : Directory :=
  { dial := none, bind := none, search := fun _ => .ok (uids.map userEntry) }

/-- A record named `x` for the user `alice`. -/
def misnamedRecord : LdapUser :=
  { Name := "x", Namespace := "ldap-space", Spec := { Username := "alice" } }

/-! ## Lemmas: maps -/

variable {σ : Type}

theorem GoMap.keys_set {V : Type} (m : GoMap V) (k : String) (v : V) :
    (m.set k v).keys = if k ∈ m.keys then m.keys else m.keys ++ [k] := by
  unfold GoMap.set GoMap.has
  by_cases h : k ∈ m.keys
  · simp only [h, decide_True, if_true]
    unfold GoMap.keys
    rw [List.map_map]
    apply List.map_congr_left
    intro p _
    by_cases hp : p.1 = k <;> simp [hp]
  · simp only [GoMap.keys] at h ⊢
    simp [h]

theorem GoMap.has_true_iff {V : Type} (m : GoMap V) (k : String) :
    m.has k = true ↔ k ∈ m.keys := by
  simp [GoMap.has]

theorem foldl_set_keys {α V : Type} (f : α → String) (g : α → V) (xs : List α) (m : GoMap V) :
    (∀ k, k ∈ (xs.foldl (fun m x => m.set (f x) (g x)) m).keys ↔ k ∈ m.keys ∨ k ∈ xs.map f) ∧
    (m.keys.Nodup → (xs.foldl (fun m x => m.set (f x) (g x)) m).keys.Nodup) := by
  induction xs generalizing m with
  | nil => simp
  | cons x xs ih =>
    simp only [List.foldl_cons, List.map_cons, List.mem_cons]
    obtain ⟨h1, h2⟩ := ih (m.set (f x) (g x))
    refine ⟨fun k => ?_, fun hm => h2 ?_⟩
    · rw [h1, GoMap.keys_set]
      by_cases hx : f x ∈ m.keys
      · simp only [hx, if_true]
        constructor
        · rintro (h | h)
          · exact Or.inl h
          · exact Or.inr (Or.inr h)
        · rintro (h | h | h)
          · exact Or.inl h
          · exact Or.inl (h ▸ hx)
          · exact Or.inr h
      · simp only [hx, if_false, List.mem_append, List.mem_singleton]
        tauto
    · rw [GoMap.keys_set]
      by_cases hx : f x ∈ m.keys
      · simpa [hx] using hm
      · simp only [hx, if_false]
        exact List.Nodup.append hm (List.nodup_singleton _) (by simpa using hx)

theorem existingMap_has (items : List LdapUser) (k : String) :
    (existingMap items).has k = true ↔ k ∈ items.map (fun u => u.Name) := by
  rw [GoMap.has_true_iff]
  have h := (foldl_set_keys (fun u : LdapUser => u.Name) (fun u => u) items []).1 k
  simpa [existingMap, GoMap.keys] using h

theorem collectUids_mem (entries : List Entry) (k : String) :
    k ∈ (collectUids entries).keys ↔ k ∈ entries.map (fun en => en.GetAttributeValue "uid") := by
  have h := (foldl_set_keys (fun en : Entry => en.GetAttributeValue "uid") (fun _ => ())
    entries []).1 k
  simpa [collectUids, GoMap.keys] using h

theorem collectUids_nodup (entries : List Entry) : (collectUids entries).keys.Nodup := by
  have h := (foldl_set_keys (fun en : Entry => en.GetAttributeValue "uid") (fun _ => ())
    entries []).2
  exact h (by simp [GoMap.keys])

/-! ## Lemmas: loops and logs -/


theorem createLoop_eq_issue (e : Env σ) (M : GoMap LdapUser) (keys : List String) (s : σ) :
    createLoop e M keys s = issue e (planCreates M keys) s := by
  induction keys generalizing s with
  | nil => rfl
  | cons k ks ih =>
    unfold createLoop planCreates
    by_cases h : M.has k = true
    · simp only [h, Bool.not_true, List.filter_cons]
      simpa [planCreates] using ih s
    · simp only [Bool.not_eq_true] at h
      simp only [h, Bool.not_false, List.filter_cons, if_true, List.map_cons, issue, perform]
      cases hc : (e.Create (Object.ldapUser (newLDAPUser k)) s).1 with
      | some err => rfl
      | none => simpa [planCreates] using ih _

theorem deleteLoop_eq_issue (e : Env σ) (A : GoMap Unit) (items : List LdapUser) (s : σ) :
    deleteLoop e A items s = issue e (planDeletes A items) s := by
  induction items generalizing s with
  | nil => rfl
  | cons u us ih =>
    unfold deleteLoop planDeletes
    by_cases h : A.has u.Spec.Username = true
    · simp only [h, Bool.not_true, List.filter_cons]
      simpa [planDeletes] using ih s
    · simp only [Bool.not_eq_true] at h
      simp only [h, Bool.not_false, List.filter_cons, if_true, List.map_cons, issue, perform]
      cases hc : (e.Delete (Object.ldapUser u) s).1 with
      | some err => rfl
      | none => simpa [planDeletes] using ih _

theorem issue_append (e : Env σ) (a b : List Mutation) (s : σ) :
    issue e (a ++ b) s =
      match (issue e a s).1 with
      | some err => (some err, (issue e a s).2)
      | none => issue e b (issue e a s).2 := by
  induction a generalizing s with
  | nil => rfl
  | cons m ms ih =>
    simp only [List.cons_append, issue]
    cases hc : (perform e m s).1 with
    | some err => rfl
    | none => simpa using ih _

theorem perform_recording (e : Env σ) (m : Mutation) (s : σ) (log : List Event) :
    perform (recording e) m (s, log) =
      ((perform e m s).1, (perform e m s).2, log ++ [(m.call, (perform e m s).1)]) := by
  cases m <;> rfl

theorem issue_recording (e : Env σ) (ms : List Mutation) (s : σ) (log : List Event) :
    issue (recording e) ms (s, log) =
      ((issue e ms s).1, (issue e ms s).2, log ++ issued e ms s) := by
  induction ms generalizing s log with
  | nil => simp [issue, issued]
  | cons m ms ih =>
    simp only [issue, issued, perform_recording]
    cases hc : (perform e m s).1 with
    | some err => simp
    | none => simp [ih]

theorem mutations_append (a b : List Event) : mutations (a ++ b) = mutations a ++ mutations b := by
  simp [mutations]

theorem Mutation.call_isMutation (m : Mutation) : m.call.isMutation = true := by
  cases m <;> rfl

theorem mutations_issued (e : Env σ) (ms : List Mutation) (s : σ) :
    mutations (issued e ms s) = issued e ms s := by
  induction ms generalizing s with
  | nil => rfl
  | cons m ms ih =>
    simp only [issued]
    cases hc : (perform e m s).1 with
    | some err => simp [mutations, Mutation.call_isMutation]
    | none =>
      have := ih (perform e m s).2
      simp only [mutations] at this ⊢
      simp [List.filter_cons, Mutation.call_isMutation, this]

theorem issued_of_ok (e : Env σ) (ms : List Mutation) (s : σ)
    (h : (issue e ms s).1 = none) : issued e ms s = ms.map Mutation.ok := by
  induction ms generalizing s with
  | nil => rfl
  | cons m ms ih =>
    simp only [issue, issued] at h ⊢
    cases hc : (perform e m s).1 with
    | some err => simp [hc] at h
    | none =>
      simp only [hc] at h
      simp [ih _ h, Mutation.ok]

theorem issue_of_always_ok (e : Env σ) (ms : List Mutation) (s : σ)
    (h : ∀ m t, (perform e m t).1 = none) : (issue e ms s).1 = none := by
  induction ms generalizing s with
  | nil => rfl
  | cons m ms ih => simp only [issue, h m s]; exact ih _

/-- The log of a fail-fast run: an initial segment of the plan, every answer but the last
is a success, and the result is the last answer. -/
theorem issued_spec (e : Env σ) (ms : List Mutation) (s : σ) :
    (∃ rest, ms.map Mutation.call = (issued e ms s).map Prod.fst ++ rest ∧
      ((issue e ms s).1 = none → rest = [])) ∧
    (∀ ev ∈ (issued e ms s).dropLast, ev.2 = none) ∧
    (issue e ms s).1 = (issued e ms s).getLast?.bind Prod.snd := by
  induction ms generalizing s with
  | nil => simp [issued, issue]
  | cons m ms ih =>
    simp only [issue, issued]
    cases hc : (perform e m s).1 with
    | some err => simp
    | none =>
      obtain ⟨⟨rest, h1, h1'⟩, h2, h3⟩ := ih (perform e m s).2
      refine ⟨⟨rest, by simp [h1], by simpa using h1'⟩, ?_, ?_⟩
      · intro ev hev
        cases hl : issued e ms (perform e m s).2 with
        | nil => simp [hl] at hev
        | cons x xs =>
          rw [hl, List.dropLast_cons₂] at hev
          rcases List.mem_cons.1 hev with h | h
          · rw [h]
          · exact h2 ev (by rw [hl]; exact h)
      · simp only [h3]
        cases hl : issued e ms (perform e m s).2 with
        | nil => simp
        | cons x xs => simp [List.getLast?_cons_cons]

theorem retrieve_recording (e : Env σ) (s : σ) (log : List Event) :
    ∃ tr, retrieveLdapUsers (recording e) (s, log) =
        ((retrieveLdapUsers e s).1, (retrieveLdapUsers e s).2, log ++ tr) ∧
      mutations tr = [] := by
  unfold retrieveLdapUsers
  simp only [recording]
  cases hd : (e.Dial ldapAddr s).1 with
  | some err => exact ⟨[(Call.dial ldapAddr, some err)], by simp, rfl⟩
  | none =>
    cases hb : (e.Bind ldapBindDN ldapBindPasswd (e.Dial ldapAddr s).2).1 with
    | some err =>
      exact ⟨[(Call.dial ldapAddr, none), (Call.bind ldapBindDN ldapBindPasswd, some err),
        (Call.close, none)], by simp, rfl⟩
    | none =>
      cases hs : (e.Search allUsersSearchRequest
          (e.Bind ldapBindDN ldapBindPasswd (e.Dial ldapAddr s).2).2).1 with
      | error err =>
        exact ⟨[(Call.dial ldapAddr, none), (Call.bind ldapBindDN ldapBindPasswd, none),
          (Call.search allUsersSearchRequest, some err), (Call.close, none)],
          by simp [errOf], rfl⟩
      | ok entries =>
        exact ⟨[(Call.dial ldapAddr, none), (Call.bind ldapBindDN ldapBindPasswd, none),
          (Call.search allUsersSearchRequest, none), (Call.close, none)],
          by simp [errOf], rfl⟩

theorem retrieve_ok_collect (e : Env σ) (s : σ) (A : GoMap Unit)
    (h : (retrieveLdapUsers e s).1 = .ok A) : ∃ entries, A = collectUids entries := by
  unfold retrieveLdapUsers at h
  simp only [] at h
  split at h
  · simp at h
  · split at h
    · simp at h
    · split at h
      · simp at h
      · rename_i entries _
        exact ⟨entries, by simpa using h.symm⟩

theorem sync_eq_issue (e : Env σ) (order : List String → List String) (s : σ)
    (A : GoMap Unit) (B : List LdapUser)
    (hA : (retrieveLdapUsers e s).1 = .ok A)
    (hB : (e.List (retrieveLdapUsers e s).2).1 = .ok B) :
    SyncLdapUsers e order s = issue e (plan order A B) (e.List (retrieveLdapUsers e s).2).2 := by
  unfold SyncLdapUsers
  simp only [hA, hB, createLoop_eq_issue, deleteLoop_eq_issue, plan, issue_append]

theorem recording_List (e : Env σ) (s : σ) (log : List Event) :
    (recording e).List (s, log) =
      ((e.List s).1, (e.List s).2, log ++ [(Call.list, errOf (e.List s).1)]) := rfl

theorem sync_recording (e : Env σ) (order : List String → List String) (s : σ)
    (A : GoMap Unit) (B : List LdapUser)
    (hA : (retrieveLdapUsers e s).1 = .ok A)
    (hB : (e.List (retrieveLdapUsers e s).2).1 = .ok B) :
    (SyncLdapUsers (recording e) order (s, [])).1 = (SyncLdapUsers e order s).1 ∧
    (SyncLdapUsers (recording e) order (s, [])).2.1 = (SyncLdapUsers e order s).2 ∧
    mutations (SyncLdapUsers (recording e) order (s, [])).2.2 =
      issued e (plan order A B) (e.List (retrieveLdapUsers e s).2).2 := by
  obtain ⟨tr, htr, hmut⟩ := retrieve_recording e s []
  have hA' : (retrieveLdapUsers (recording e) (s, [])).1 = .ok A := by rw [htr]; exact hA
  have hB' : ((recording e).List (retrieveLdapUsers (recording e) (s, [])).2).1 = .ok B := by
    rw [htr]; exact hB
  rw [sync_eq_issue (recording e) order (s, []) A B hA' hB', sync_eq_issue e order s A B hA hB, htr]
  simp only [recording_List, issue_recording, List.nil_append, mutations_append, hmut,
    mutations_issued, true_and]
  simp [mutations, Call.isMutation]

/-! ## The bulk synchroniser -/

theorem plan_eq (order : List String → List String) (A : GoMap Unit) (B : List LdapUser) :
    plan order A B =
      ((order A.keys).filter (fun k => decide (k ∉ B.map (fun u => u.Name)))).map
          (fun k => Mutation.create (.ldapUser (newLDAPUser k))) ++
        (B.filter (fun u => decide (u.Spec.Username ∉ A.keys))).map
          (fun u => Mutation.delete (.ldapUser u)) := by
  unfold plan planCreates planDeletes
  congr 2
  · apply List.filter_congr
    intro k _
    have := existingMap_has B k
    by_cases h : (existingMap B).has k = true
    · simp [h, this.1 h]
    · have h' : k ∉ B.map (fun u => u.Name) := fun hk => h (this.2 hk)
      simp only [Bool.not_eq_true] at h
      simp [h, h']
  · apply List.filter_congr
    intro u _
    simp [GoMap.has]

/-- C2: when every registry call succeeds and each listed record is named after its user,
the mutations `SyncLdapUsers` issues are one successful `Create` per directory key that no
listed record bears (each key once, in the order the map is enumerated, the record created
having that key as `Name` and `Spec.Username`), then one successful `Delete` per listed
record whose key is no directory key, and nothing else; no created key is a deleted key,
and no mutation names a record whose key is in both.  With an empty directory that is no
creation and one deletion per listed record; when directory and registry hold the same
keys it is nothing at all; with directory `alice`, `bob` and registry `bob`, `carol` it is
the creation of `alice` followed by the deletion of `carol`. -/
theorem sync_mutations_when_calls_succeed (e : Env σ) (order : List String → List String)
    (s : σ) (A : GoMap Unit) (B : List LdapUser)
    (horder : ∀ l, (order l).Perm l)
    (hA : (retrieveLdapUsers e s).1 = .ok A)
    (hB : (e.List (retrieveLdapUsers e s).2).1 = .ok B)
    (hname : ∀ u ∈ B, u.Name = u.Spec.Username)
    (hC : ∀ o t, (e.Create o t).1 = none)
    (hD : ∀ o t, (e.Delete o t).1 = none) :
    (SyncLdapUsers (recording e) order (s, [])).1 = none ∧
    mutations (SyncLdapUsers (recording e) order (s, [])).2.2 =
      ((order A.keys).filter (fun k => decide (k ∉ B.map (fun u => u.Name)))).map
          (fun k => (Call.create (.ldapUser (newLDAPUser k)), none)) ++
        (B.filter (fun u => decide (u.Name ∉ A.keys))).map
          (fun u => (Call.delete (.ldapUser u), none)) ∧
    ((order A.keys).filter (fun k => decide (k ∉ B.map (fun u => u.Name)))).Perm
      (A.keys.filter (fun k => decide (k ∉ B.map (fun u => u.Name)))) ∧
    ((order A.keys).filter (fun k => decide (k ∉ B.map (fun u => u.Name)))).Nodup ∧
    (∀ k, (newLDAPUser k).Name = k ∧ (newLDAPUser k).Spec.Username = k) ∧
    (∀ k ∈ (order A.keys).filter (fun k => decide (k ∉ B.map (fun u => u.Name))),
      ∀ u ∈ B.filter (fun u => decide (u.Name ∉ A.keys)), u.Name ≠ k) ∧
    (∀ u ∈ B, u.Name ∈ A.keys →
      ∀ ev ∈ mutations (SyncLdapUsers (recording e) order (s, [])).2.2,
        ∀ o, ev.1 = Call.create o ∨ ev.1 = Call.delete o → o.om.Name ≠ u.Name) ∧
    (A.keys = [] →
      mutations (SyncLdapUsers (recording e) order (s, [])).2.2 =
        B.map (fun u => (Call.delete (.ldapUser u), none))) ∧
    ((∀ k, k ∈ A.keys ↔ k ∈ B.map (fun u => u.Name)) →
      mutations (SyncLdapUsers (recording e) order (s, [])).2.2 = []) ∧
    (A.keys.Perm ["alice", "bob"] → ∀ b c, B = [b, c] → b.Name = "bob" → c.Name = "carol" →
      mutations (SyncLdapUsers (recording e) order (s, [])).2.2 =
        [(Call.create (.ldapUser (newLDAPUser "alice")), none),
         (Call.delete (.ldapUser c), none)]) := by
  obtain ⟨h1, -, h3⟩ := sync_recording e order s A B hA hB
  have hperf : ∀ m t, (perform e m t).1 = none := by
    intro m t
    cases m
    · exact hC _ t
    · exact hD _ t
  have hres : (issue e (plan order A B) (e.List (retrieveLdapUsers e s).2).2).1 = none :=
    issue_of_always_ok e _ _ hperf
  have hdel : B.filter (fun u => decide (u.Spec.Username ∉ A.keys)) =
      B.filter (fun u => decide (u.Name ∉ A.keys)) := by
    apply List.filter_congr
    intro u hu
    rw [hname u hu]
  have hlog : mutations (SyncLdapUsers (recording e) order (s, [])).2.2 =
      ((order A.keys).filter (fun k => decide (k ∉ B.map (fun u => u.Name)))).map
          (fun k => (Call.create (.ldapUser (newLDAPUser k)), none)) ++
        (B.filter (fun u => decide (u.Name ∉ A.keys))).map
          (fun u => (Call.delete (.ldapUser u), none)) := by
    rw [h3, issued_of_ok e _ _ hres, plan_eq, hdel, List.map_append, List.map_map, List.map_map]
    rfl
  obtain ⟨entries, hent⟩ := retrieve_ok_collect e s A hA
  have hnodup : A.keys.Nodup := hent ▸ collectUids_nodup entries
  have hperm := horder A.keys
  refine ⟨?_, hlog, hperm.filter _, ?_, fun k => ⟨rfl, rfl⟩, ?_, ?_, ?_, ?_, ?_⟩
  · rw [h1, sync_eq_issue e order s A B hA hB]; exact hres
  · exact (hperm.nodup_iff.2 hnodup).filter _
  · intro k hk u hu hEq
    simp only [List.mem_filter, decide_eq_true_eq] at hk hu
    exact hu.2 (hEq ▸ hperm.mem_iff.1 hk.1)
  · intro u hu huA ev hev o ho
    rw [hlog] at hev
    simp only [List.mem_append, List.mem_map, List.mem_filter, decide_eq_true_eq] at hev
    rcases hev with ⟨k, ⟨-, hk⟩, rfl⟩ | ⟨v, ⟨-, hv⟩, rfl⟩
    · rcases ho with ho | ho
      · simp only [Call.create.injEq] at ho
        subst ho
        intro hEq
        exact hk ⟨u, hu, hEq.symm⟩
      · simp at ho
    · rcases ho with ho | ho
      · simp at ho
      · simp only [Call.delete.injEq] at ho
        subst ho
        intro hEq
        simp only [Object.om] at hEq
        exact hv (by rw [show v.Name = u.Name from hEq]; exact huA)
  · intro hnil
    rw [hlog]
    have hnil' : order A.keys = [] := List.Perm.eq_nil (hnil ▸ hperm)
    rw [hnil', hnil]
    simp
  · intro hsame
    rw [hlog]
    have hc : (order A.keys).filter (fun k => decide (k ∉ B.map (fun u => u.Name))) = [] := by
      apply List.filter_eq_nil_iff.2
      intro k hk
      simpa using (hsame k).1 (hperm.mem_iff.1 hk)
    have hd : B.filter (fun u => decide (u.Name ∉ A.keys)) = [] := by
      apply List.filter_eq_nil_iff.2
      intro u hu
      simpa using (hsame u.Name).2 (List.mem_map.2 ⟨u, hu, rfl⟩)
    rw [hc, hd]
    rfl
  · intro hab b c hBeq hb hc
    rw [hlog]
    have hp : (order A.keys).Perm ["alice", "bob"] := hperm.trans hab
    have hc1 : (order A.keys).filter (fun k => decide (k ∉ B.map (fun u => u.Name))) =
        ["alice"] := by
      have := hp.filter (fun k => decide (k ∉ B.map (fun u => u.Name)))
      rw [hBeq] at this ⊢
      simp only [List.map_cons, List.map_nil, hb, hc] at this ⊢
      have h2 : List.filter (fun k => decide (k ∉ ["bob", "carol"])) ["alice", "bob"] =
          ["alice"] := by decide
      rw [h2] at this
      exact List.perm_singleton.1 this
    have hd1 : B.filter (fun u => decide (u.Name ∉ A.keys)) = [c] := by
      have hbA : b.Name ∈ A.keys := by rw [hb]; exact hab.mem_iff.2 (by simp)
      have hcA : c.Name ∉ A.keys := by
        rw [hc]; intro h; have := hab.mem_iff.1 h; revert this; decide
      rw [hBeq]
      simp [List.filter_cons, hbA, hcA]
    rw [hc1, hd1]
    rfl

/-- C2 at directory `alice`, `bob` and registry `bob`, `carol`, every call succeeding. -/
theorem sync_mutations_when_calls_succeed_witness :
    mutations (SyncLdapUsers (recording (scriptedEnv (scriptOf ["alice", "bob"]
        [newLDAPUser "bob", newLDAPUser "carol"] (fun _ => none) (fun _ => none))))
        id ((), [])).2.2 =
      [(Call.create (.ldapUser (newLDAPUser "alice")), none),
       (Call.delete (.ldapUser (newLDAPUser "carol")), none)] :=
  (sync_mutations_when_calls_succeed
    (scriptedEnv (scriptOf ["alice", "bob"] [newLDAPUser "bob", newLDAPUser "carol"]
      (fun _ => none) (fun _ => none)))
    id () (collectUids (["alice", "bob"].map userEntry))
    [newLDAPUser "bob", newLDAPUser "carol"]
    (fun l => List.Perm.refl l) rfl rfl (by decide) (fun _ _ => rfl)
    (fun _ _ => rfl)).2.2.2.2.2.2.2.2.2 (by decide) _ _ rfl rfl rfl

/-- C3 fails: with directory `alice`, `bob`, an empty registry and a `Create` that fails,
the `Create` for `alice` is attempted, the pass returns its error, and no `Create` for
`bob` is ever attempted. -/
theorem sync_abandons_remaining_items :
    ¬ (∀ k ∈ (collectUids (["alice", "bob"].map userEntry)).keys,
        k ∉ ([] : List LdapUser).map (fun u => u.Name) →
        Call.create (.ldapUser (newLDAPUser k)) ∈
          ((SyncLdapUsers (recording (scriptedEnv (scriptOf ["alice", "bob"] []
            (fun _ => some (.other "unavailable")) (fun _ => none)))) id ((), [])).2.2).map
            Prod.fst) := by
  decide

/-- C3, amended: `SyncLdapUsers` is fail-fast.  The mutations it attempts are an initial
segment of the planned sequence (the creations for the directory keys missing from the
registry, then the deletions of the records whose user is no directory key); every
attempted call but the last was answered with success; the pass returns the answer of
the last attempted call; and when it returns nil every planned call was attempted. -/
theorem sync_attempts_until_first_failure (e : Env σ) (order : List String → List String)
    (s : σ) (A : GoMap Unit) (B : List LdapUser)
    (hA : (retrieveLdapUsers e s).1 = .ok A)
    (hB : (e.List (retrieveLdapUsers e s).2).1 = .ok B) :
    ∃ rest,
      ((order A.keys).filter (fun k => decide (k ∉ B.map (fun u => u.Name)))).map
          (fun k => Call.create (.ldapUser (newLDAPUser k))) ++
        (B.filter (fun u => decide (u.Spec.Username ∉ A.keys))).map
          (fun u => Call.delete (.ldapUser u)) =
        (mutations (SyncLdapUsers (recording e) order (s, [])).2.2).map Prod.fst ++ rest ∧
      ((SyncLdapUsers (recording e) order (s, [])).1 = none → rest = []) ∧
      (∀ ev ∈ (mutations (SyncLdapUsers (recording e) order (s, [])).2.2).dropLast,
        ev.2 = none) ∧
      (SyncLdapUsers (recording e) order (s, [])).1 =
        (mutations (SyncLdapUsers (recording e) order (s, [])).2.2).getLast?.bind Prod.snd := by
  obtain ⟨h1, -, h3⟩ := sync_recording e order s A B hA hB
  obtain ⟨⟨rest, hr1, hr2⟩, hr3, hr4⟩ :=
    issued_spec e (plan order A B) (e.List (retrieveLdapUsers e s).2).2
  rw [h3, h1, sync_eq_issue e order s A B hA hB]
  refine ⟨rest, ?_, hr2, hr3, hr4⟩
  rw [← hr1, plan_eq, List.map_append, List.map_map, List.map_map]
  rfl

/-- C3, amended, at directory `alice`, `bob`, an empty registry and a failing `Create`. -/
theorem sync_attempts_until_first_failure_witness :
    ∃ rest,
      ((id (collectUids (["alice", "bob"].map userEntry)).keys).filter
          (fun k => decide (k ∉ ([] : List LdapUser).map (fun u => u.Name)))).map
          (fun k => Call.create (.ldapUser (newLDAPUser k))) ++
        (([] : List LdapUser).filter (fun u => decide (u.Spec.Username ∉
          (collectUids (["alice", "bob"].map userEntry)).keys))).map
          (fun u => Call.delete (.ldapUser u)) =
        (mutations (SyncLdapUsers (recording (scriptedEnv (scriptOf ["alice", "bob"] []
            (fun _ => some (.other "unavailable")) (fun _ => none)))) id ((), [])).2.2).map
            Prod.fst ++ rest ∧
      ((SyncLdapUsers (recording (scriptedEnv (scriptOf ["alice", "bob"] []
            (fun _ => some (.other "unavailable")) (fun _ => none)))) id ((), [])).1 = none →
        rest = []) ∧
      (∀ ev ∈ (mutations (SyncLdapUsers (recording (scriptedEnv (scriptOf ["alice", "bob"] []
            (fun _ => some (.other "unavailable")) (fun _ => none)))) id ((), [])).2.2).dropLast,
        ev.2 = none) ∧
      (SyncLdapUsers (recording (scriptedEnv (scriptOf ["alice", "bob"] []
            (fun _ => some (.other "unavailable")) (fun _ => none)))) id ((), [])).1 =
        (mutations (SyncLdapUsers (recording (scriptedEnv (scriptOf ["alice", "bob"] []
            (fun _ => some (.other "unavailable")) (fun _ => none)))) id ((), [])).2.2).getLast?.bind
          Prod.snd :=
  sync_attempts_until_first_failure
    (scriptedEnv (scriptOf ["alice", "bob"] [] (fun _ => some (.other "unavailable"))
      (fun _ => none)))
    id () (collectUids (["alice", "bob"].map userEntry)) [] rfl rfl

/-- C4 fails on the code: when the registry answers the `Create` for `alice` with
`AlreadyExists`, `SyncLdapUsers` returns that error instead of nil; and when it answers
the `Delete` of `carol` with `NotFound`, `SyncLdapUsers` returns that error instead of
nil. -/
theorem sync_returns_absorbable_errors :
    (SyncLdapUsers (scriptedEnv (scriptOf ["alice"] [] (fun _ => some .alreadyExists)
      (fun _ => none))) id ()).1 = some .alreadyExists ∧
    (SyncLdapUsers (scriptedEnv (scriptOf [] [newLDAPUser "carol"] (fun _ => none)
      (fun _ => some .notFound))) id ()).1 = some .notFound := by
  decide

/-! ## The provisioner -/

theorem recording_Create (e : Env σ) (o : Object) (s : σ) (log : List Event) :
    (recording e).Create o (s, log) =
      ((e.Create o s).1, (e.Create o s).2, log ++ [(Call.create o, (e.Create o s).1)]) := rfl

theorem recording_Delete (e : Env σ) (o : Object) (s : σ) (log : List Event) :
    (recording e).Delete o (s, log) =
      ((e.Delete o s).1, (e.Delete o s).2, log ++ [(Call.delete o, (e.Delete o s).1)]) := rfl

theorem errUnless_eq_none (p : Err → Bool) (a : Option Err) :
    errUnless p a = none ↔ a = none ∨ ∃ err, a = some err ∧ p err = true := by
  cases a with
  | none => simp [errUnless]
  | some err => by_cases h : p err = true <;> simp [errUnless, h]

theorem errUnless_eq_some (p : Err → Bool) (a : Option Err) (err : Err) :
    errUnless p a = some err ↔ a = some err ∧ p err = false := by
  cases a with
  | none => simp [errUnless]
  | some err' =>
    by_cases h : p err' = true
    · simp only [errUnless, h, if_true, Option.some.injEq]
      constructor
      · intro h1; cases h1
      · rintro ⟨h1, h2⟩
        rw [h1] at h
        simp [h] at h2
    · have h' : p err' = false := by simpa using h
      simp only [errUnless, h', Bool.false_eq_true, if_false, Option.some.injEq]
      constructor
      · intro h1; subst h1; exact ⟨rfl, h'⟩
      · intro h1; exact h1.1

theorem isAlreadyExists_iff (err : Err) : IsAlreadyExists err = true ↔ err = .alreadyExists := by
  cases err <;> simp [IsAlreadyExists]

theorem isNotFound_iff (err : Err) : IsNotFound err = true ↔ err = .notFound := by
  cases err <;> simp [IsNotFound]

/-- The run of `createOrUpdateUserResources` under a recording environment, by cases on
the answers. -/
theorem createOrUpdate_recording (e : Env σ) (u : LdapUser) (s : σ) :
    createOrUpdateUserResources (recording e) u (s, []) =
      match errUnless IsAlreadyExists (e.Create (nsObject u) s).1 with
      | some err => (some err, (e.Create (nsObject u) s).2,
          [(Call.create (nsObject u), (e.Create (nsObject u) s).1)])
      | none =>
        match errUnless IsAlreadyExists
            (e.Create (cmObject u) (e.Create (nsObject u) s).2).1 with
        | some err => (some err, (e.Create (cmObject u) (e.Create (nsObject u) s).2).2,
            [(Call.create (nsObject u), (e.Create (nsObject u) s).1),
             (Call.create (cmObject u), (e.Create (cmObject u) (e.Create (nsObject u) s).2).1)])
        | none =>
          (errUnless IsAlreadyExists (e.Create (podObject u)
              (e.Create (cmObject u) (e.Create (nsObject u) s).2).2).1,
            (e.Create (podObject u) (e.Create (cmObject u) (e.Create (nsObject u) s).2).2).2,
            [(Call.create (nsObject u), (e.Create (nsObject u) s).1),
             (Call.create (cmObject u), (e.Create (cmObject u) (e.Create (nsObject u) s).2).1),
             (Call.create (podObject u), (e.Create (podObject u)
                (e.Create (cmObject u) (e.Create (nsObject u) s).2).2).1)]) := by
  unfold createOrUpdateUserResources
  simp only [recording_Create, List.nil_append]
  cases errUnless IsAlreadyExists (e.Create (nsObject u) s).1 with
  | some err => rfl
  | none =>
    simp only
    cases errUnless IsAlreadyExists (e.Create (cmObject u) (e.Create (nsObject u) s).2).1 with
    | some err => rfl
    | none =>
      simp only [List.singleton_append, List.cons_append, List.nil_append]
      cases errUnless IsAlreadyExists (e.Create (podObject u)
              (e.Create (cmObject u) (e.Create (nsObject u) s).2).2).1 <;> rfl

theorem absorbed_of_errUnless_none (a : Option Err)
    (h : errUnless IsAlreadyExists a = none) : a = none ∨ a = some .alreadyExists := by
  rcases (errUnless_eq_none _ _).1 h with h | ⟨err, h, hp⟩
  · exact Or.inl h
  · exact Or.inr (by rw [h, (isAlreadyExists_iff err).1 hp])

theorem errUnless_none_of_absorbed (a : Option Err)
    (h : a = none ∨ a = some .alreadyExists) : errUnless IsAlreadyExists a = none := by
  rcases h with h | h <;> subst h <;> rfl

theorem not_absorbed_of_errUnless_some (a : Option Err) (err : Err)
    (h : errUnless IsAlreadyExists a = some err) : a = some err ∧ err ≠ .alreadyExists := by
  obtain ⟨h1, h2⟩ := (errUnless_eq_some _ _ _).1 h
  refine ⟨h1, fun hc => ?_⟩
  subst hc
  simp [IsAlreadyExists] at h2

/-- C7: `createOrUpdateUserResources` attempts its `Create` calls in the order namespace
(named after the key), ConfigMap (`<key>-config`), Pod (`<key>-pod`); every call before
the last attempted one was answered with success or `AlreadyExists`; it returns nil
exactly when all three were attempted and each was answered with success or
`AlreadyExists`; it returns an error exactly when the last attempted call was answered
with that error and the error is not `AlreadyExists`.  On a store that already holds the
namespace and the ConfigMap but not the Pod, it adds the Pod alone and returns nil. -/
theorem createOrUpdate_ordered_and_resumable (e : Env σ) (u : LdapUser) (s : σ)
    (dir : Directory) (st : Store) :
    ((nsObject u).key = (Kind.Namespace, "", u.Spec.Username) ∧
      (cmObject u).key = (Kind.ConfigMap, u.Spec.Username, u.Spec.Username ++ "-config") ∧
      (podObject u).key = (Kind.Pod, "ldap-space", u.Spec.Username ++ "-pod")) ∧
    (∃ rest, [Call.create (nsObject u), Call.create (cmObject u), Call.create (podObject u)] =
        (createOrUpdateUserResources (recording e) u (s, [])).2.2.map Prod.fst ++ rest ∧
      ((createOrUpdateUserResources (recording e) u (s, [])).1 = none → rest = [])) ∧
    (∀ ev ∈ (createOrUpdateUserResources (recording e) u (s, [])).2.2.dropLast,
      ev.2 = none ∨ ev.2 = some .alreadyExists) ∧
    ((createOrUpdateUserResources (recording e) u (s, [])).1 = none ↔
      (createOrUpdateUserResources (recording e) u (s, [])).2.2.map Prod.fst =
          [Call.create (nsObject u), Call.create (cmObject u), Call.create (podObject u)] ∧
        ∀ ev ∈ (createOrUpdateUserResources (recording e) u (s, [])).2.2,
          ev.2 = none ∨ ev.2 = some .alreadyExists) ∧
    (∀ err, (createOrUpdateUserResources (recording e) u (s, [])).1 = some err ↔
      (createOrUpdateUserResources (recording e) u (s, [])).2.2.getLast?.bind Prod.snd =
          some err ∧ err ≠ .alreadyExists) ∧
    (st.has (nsObject u) = true → st.has (cmObject u) = true → st.has (podObject u) = false →
      createOrUpdateUserResources (recording (clusterEnv dir)) u (st, []) =
        (none, st ++ [podObject u],
          [(Call.create (nsObject u), some .alreadyExists),
           (Call.create (cmObject u), some .alreadyExists),
           (Call.create (podObject u), none)])) := by
  refine ⟨⟨rfl, rfl, rfl⟩, ?_⟩
  have hscen : st.has (nsObject u) = true → st.has (cmObject u) = true →
      st.has (podObject u) = false →
      createOrUpdateUserResources (recording (clusterEnv dir)) u (st, []) =
        (none, st ++ [podObject u],
          [(Call.create (nsObject u), some .alreadyExists),
           (Call.create (cmObject u), some .alreadyExists),
           (Call.create (podObject u), none)]) := by
    intro h1 h2 h3
    rw [createOrUpdate_recording]
    simp [clusterEnv, h1, h2, h3, errUnless, IsAlreadyExists]
  rw [createOrUpdate_recording]
  rcases h1 : errUnless IsAlreadyExists (e.Create (nsObject u) s).1 with _ | err1
  · have a1 := absorbed_of_errUnless_none _ h1
    rcases h2 : errUnless IsAlreadyExists
        (e.Create (cmObject u) (e.Create (nsObject u) s).2).1 with _ | err2
    · have a2 := absorbed_of_errUnless_none _ h2
      simp only [List.map_cons, List.map_nil, List.dropLast_cons₂, List.dropLast_single,
        List.mem_cons, List.mem_singleton, List.not_mem_nil, or_false]
      refine ⟨⟨[], by simp, fun _ => rfl⟩, ?_, ?_, ?_, hscen⟩
      · rintro ev (h | h) <;> subst h <;> assumption
      · constructor
        · intro h3
          refine ⟨trivial, ?_⟩
          have a3 := absorbed_of_errUnless_none _ h3
          rintro ev (h | h | h) <;> subst h <;> assumption
        · rintro ⟨-, h⟩
          exact errUnless_none_of_absorbed _ (h _ (Or.inr (Or.inr rfl)))
      · intro err
        constructor
        · intro h3
          obtain ⟨h4, h5⟩ := not_absorbed_of_errUnless_some _ _ h3
          exact ⟨by simpa [List.getLast?] using h4, h5⟩
        · rintro ⟨h4, h5⟩
          have h6 : (e.Create (podObject u)
              (e.Create (cmObject u) (e.Create (nsObject u) s).2).2).1 = some err := by
            simpa [List.getLast?] using h4
          rw [h6]
          cases err <;> simp [errUnless, IsAlreadyExists] at h5 ⊢
    · obtain ⟨b2, b2'⟩ := not_absorbed_of_errUnless_some _ _ h2
      simp only [List.map_cons, List.map_nil, List.dropLast_cons₂, List.dropLast_single,
        List.mem_cons, List.mem_singleton, List.not_mem_nil, or_false]
      refine ⟨⟨[Call.create (podObject u)], by simp, fun h => by simp at h⟩, ?_, ?_, ?_, hscen⟩
      · rintro ev h; subst h; assumption
      · simp
      · intro err
        simp only [Option.some.injEq, List.getLast?, List.getLast, Option.bind, b2]
        constructor
        · intro h; subst h; exact ⟨rfl, b2'⟩
        · intro h; exact h.1
  · obtain ⟨b1, b1'⟩ := not_absorbed_of_errUnless_some _ _ h1
    simp only [List.map_cons, List.map_nil, List.dropLast_single, List.not_mem_nil,
      List.mem_singleton]
    refine ⟨⟨[Call.create (cmObject u), Call.create (podObject u)], by simp,
      fun h => by simp at h⟩, ?_, ?_, ?_, hscen⟩
    · intro ev h; exact absurd h (by simp)
    · simp
    · intro err
      simp only [Option.some.injEq, List.getLast?, List.getLast, Option.bind, b1]
      constructor
      · intro h; subst h; exact ⟨rfl, b1'⟩
      · intro h; exact h.1

/-- C7 at the key `dave`, on a store that holds the namespace and the ConfigMap of
`dave` but not the Pod. -/
theorem createOrUpdate_ordered_and_resumable_witness :
    createOrUpdateUserResources (recording (clusterEnv (directoryOf ["dave"])))
        (newLDAPUser "dave")
        ([nsObject (newLDAPUser "dave"), cmObject (newLDAPUser "dave")], []) =
      (none,
        [nsObject (newLDAPUser "dave"), cmObject (newLDAPUser "dave")] ++
          [podObject (newLDAPUser "dave")],
        [(Call.create (nsObject (newLDAPUser "dave")), some .alreadyExists),
         (Call.create (cmObject (newLDAPUser "dave")), some .alreadyExists),
         (Call.create (podObject (newLDAPUser "dave")), none)]) :=
  (createOrUpdate_ordered_and_resumable (clusterEnv (directoryOf ["dave"]))
    (newLDAPUser "dave") [] (directoryOf ["dave"])
    [nsObject (newLDAPUser "dave"), cmObject (newLDAPUser "dave")]).2.2.2.2.2
    (by decide) (by decide) (by decide)

/-- C9: `deleteUserResources` issues exactly one call, a `Delete` of the namespace named
after the key; a `NotFound` answer makes it return nil; it returns an error exactly when
that `Delete` was answered with this error and the error is not `NotFound`.  On a store
without that namespace it returns nil and leaves the store as it was. -/
theorem deleteUserResources_absorbs_notFound (e : Env σ) (u : LdapUser) (s : σ)
    (dir : Directory) (st : Store) :
    (nsObject u).key = (Kind.Namespace, "", u.Spec.Username) ∧
    (deleteUserResources (recording e) u (s, [])).2.2 =
      [(Call.delete (nsObject u), (e.Delete (nsObject u) s).1)] ∧
    ((e.Delete (nsObject u) s).1 = some .notFound →
      (deleteUserResources (recording e) u (s, [])).1 = none) ∧
    (∀ err, (deleteUserResources (recording e) u (s, [])).1 = some err ↔
      (e.Delete (nsObject u) s).1 = some err ∧ err ≠ .notFound) ∧
    (st.has (nsObject u) = false →
      deleteUserResources (recording (clusterEnv dir)) u (st, []) =
        (none, st, [(Call.delete (nsObject u), some .notFound)])) := by
  refine ⟨rfl, ?_, ?_, ?_, ?_⟩
  · unfold deleteUserResources
    simp only [recording_Delete, List.nil_append]
    cases errUnless IsNotFound (e.Delete (nsObject u) s).1 <;> rfl
  · intro h
    unfold deleteUserResources
    simp only [recording_Delete, h]
    rfl
  · intro err
    unfold deleteUserResources
    simp only [recording_Delete]
    rcases h : (e.Delete (nsObject u) s).1 with _ | err'
    · simp [errUnless]
    · cases err' <;> simp [errUnless, IsNotFound] <;> intro h' <;> subst h' <;> simp
  · intro h
    unfold deleteUserResources
    simp [recording_Delete, clusterEnv, h, errUnless, IsNotFound]

/-- C9 at the key `erin`, on a store that holds nothing of `erin`. -/
theorem deleteUserResources_absorbs_notFound_witness :
    deleteUserResources (recording (clusterEnv (directoryOf []))) (newLDAPUser "erin")
        ([nsObject (newLDAPUser "dave")], []) =
      (none, [nsObject (newLDAPUser "dave")],
        [(Call.delete (nsObject (newLDAPUser "erin")), some .notFound)]) :=
  (deleteUserResources_absorbs_notFound (clusterEnv (directoryOf [])) (newLDAPUser "erin")
    [] (directoryOf []) [nsObject (newLDAPUser "dave")]).2.2.2.2 (by decide)

/-! ## The reconciler -/

theorem recording_Get (e : Env σ) (key : NamespacedName) (s : σ) (log : List Event) :
    (recording e).Get key (s, log) =
      ((e.Get key s).1, (e.Get key s).2, log ++ [(Call.get key, errOf (e.Get key s).1)]) := rfl

/-- C10: when `Get` answers `NotFound`, `Reconcile` returns the empty result and no
error, and the `Get` is the only call it makes: no directory call, no `Create`, no
`Delete`.  When `Get` answers another error, that error is returned, again after no
other call.  On a store that holds no record under the requested name, the store is left
as it was. -/
theorem reconcile_noop_when_record_gone (e : Env σ) (req : NamespacedName) (s : σ)
    (dir : Directory) (st : Store) :
    ((e.Get req s).1 = .error .notFound →
      Reconcile (recording e) req (s, []) =
        (({ Requeue := false, RequeueAfter := 0 }, none),
          (e.Get req s).2, [(Call.get req, some .notFound)])) ∧
    (∀ err, (e.Get req s).1 = .error err → err ≠ .notFound →
      Reconcile (recording e) req (s, []) =
        (({ Requeue := false, RequeueAfter := 0 }, some err),
          (e.Get req s).2, [(Call.get req, some err)])) ∧
    (st.ldapUsers.find? (fun u => u.Namespace == req.Namespace && u.Name == req.Name) = none →
      Reconcile (recording (clusterEnv dir)) req (st, []) =
        (({ Requeue := false, RequeueAfter := 0 }, none),
          st, [(Call.get req, some .notFound)])) := by
  refine ⟨?_, ?_, ?_⟩
  · intro h
    unfold Reconcile
    simp only [recording_Get, h]
    rfl
  · intro err h hne
    unfold Reconcile
    simp only [recording_Get, h]
    cases err <;> first | exact absurd rfl hne | rfl
  · intro h
    unfold Reconcile
    simp only [recording_Get]
    simp [clusterEnv, h, IsNotFound, errOf]

/-- C10 at a request for `frank` on a store that holds only the record of `alice`. -/
theorem reconcile_noop_when_record_gone_witness :
    Reconcile (recording (clusterEnv (directoryOf ["frank"])))
        { Namespace := "ldap-space", Name := "frank" }
        ([.ldapUser (newLDAPUser "alice")], []) =
      (({ Requeue := false, RequeueAfter := 0 }, none),
        [.ldapUser (newLDAPUser "alice")],
        [(Call.get { Namespace := "ldap-space", Name := "frank" }, some .notFound)]) :=
  (reconcile_noop_when_record_gone (clusterEnv (directoryOf ["frank"]))
    { Namespace := "ldap-space", Name := "frank" } [] (directoryOf ["frank"])
    [.ldapUser (newLDAPUser "alice")]).2.2 (by decide)

/-- C5 fails on the code: with the record of `alice` in the registry and `alice` in the
directory, a `Create` answered with an error other than `AlreadyExists` makes
`createOrUpdateUserResources` return that error, yet `Reconcile` returns no error; with
`alice` absent from the directory, a `Delete` answered with an error other than
`NotFound` makes `deleteUserResources` return that error, yet `Reconcile` returns no
error. -/
theorem reconcile_drops_provisioner_errors :
    ((createOrUpdateUserResources (scriptedEnv (scriptOf ["alice"] [newLDAPUser "alice"]
        (fun _ => some (.other "forbidden")) (fun _ => none))) (newLDAPUser "alice") ()).1 =
        some (.other "forbidden") ∧
      (Reconcile (scriptedEnv (scriptOf ["alice"] [newLDAPUser "alice"]
        (fun _ => some (.other "forbidden")) (fun _ => none)))
        { Namespace := "ldap-space", Name := "alice" } ()).1 =
        ({ Requeue := false, RequeueAfter := 0 }, none)) ∧
    ((deleteUserResources (scriptedEnv (scriptOf [] [newLDAPUser "alice"]
        (fun _ => none) (fun _ => some (.other "forbidden")))) (newLDAPUser "alice") ()).1 =
        some (.other "forbidden") ∧
      (Reconcile (scriptedEnv (scriptOf [] [newLDAPUser "alice"]
        (fun _ => none) (fun _ => some (.other "forbidden"))))
        { Namespace := "ldap-space", Name := "alice" } ()).1 =
        ({ Requeue := false, RequeueAfter := 0 }, none)) := by
  decide

/-! ## The concrete store -/

theorem Store.has_iff_key_mem (st : Store) (o : Object) :
    st.has o = true ↔ o.key ∈ st.map Object.key := by
  unfold Store.has
  simp only [List.any_eq_true, beq_iff_eq, List.mem_map]

theorem cluster_Create (dir : Directory) (o : Object) (st : Store) :
    (clusterEnv dir).Create o st =
      if st.has o = true then (some .alreadyExists, st) else (none, st ++ [o]) := rfl

theorem cluster_Delete (dir : Directory) (o : Object) (st : Store) :
    (clusterEnv dir).Delete o st =
      if st.has o = true then (none, st.filter (fun x => !o.goesWith x))
      else (some .notFound, st) := rfl

theorem goesWith_of_not_ns (o x : Object) (h : o.kind ≠ Kind.Namespace) :
    o.goesWith x = (x.key == o.key) := by
  simp [Object.goesWith, h]

/-- What a `Create` on the concrete store does, as far as the provisioner can tell. -/
theorem cluster_Create_spec (dir : Directory) (o : Object) (st : Store) :
    errUnless IsAlreadyExists ((clusterEnv dir).Create o st).1 = none ∧
    ((clusterEnv dir).Create o st).2.has o = true ∧
    (∀ x, st.has x = true → ((clusterEnv dir).Create o st).2.has x = true) ∧
    (st.WF → ((clusterEnv dir).Create o st).2.WF) ∧
    (st.has o = true → ((clusterEnv dir).Create o st).2 = st) := by
  by_cases h : st.has o = true
  · have hC : (clusterEnv dir).Create o st = (some .alreadyExists, st) := by
      rw [cluster_Create, if_pos h]
    rw [hC]
    exact ⟨rfl, h, fun x hx => hx, fun hw => hw, fun _ => rfl⟩
  · have hC : (clusterEnv dir).Create o st = (none, st ++ [o]) := by
      rw [cluster_Create, if_neg h]
    rw [hC]
    refine ⟨rfl, ?_, ?_, ?_, fun h' => absurd h' h⟩
    · rw [Store.has_iff_key_mem]; simp
    · intro x hx
      rw [Store.has_iff_key_mem] at hx ⊢
      simp only [List.map_append, List.mem_append]
      exact Or.inl hx
    · intro hw
      unfold Store.WF at hw ⊢
      rw [List.map_append]
      refine List.Nodup.append hw (List.nodup_singleton _) ?_
      simp only [List.map_cons, List.map_nil, List.disjoint_singleton]
      exact fun hk => h ((Store.has_iff_key_mem st o).2 hk)

theorem count_key_eq_one (st : Store) (o : Object) (hw : st.WF) (h : st.has o = true) :
    (st.filter (fun x => decide (x.key = o.key))).length = 1 := by
  induction st with
  | nil => simp [Store.has] at h
  | cons x xs ih =>
    unfold Store.WF at hw
    simp only [List.map_cons, List.nodup_cons] at hw
    by_cases hx : x.key = o.key
    · have hnil : xs.filter (fun y => decide (y.key = o.key)) = [] := by
        apply List.filter_eq_nil_iff.2
        intro y hy
        simp only [decide_eq_true_eq]
        intro hEq
        exact hw.1 (List.mem_map.2 ⟨y, hy, hEq.trans hx.symm⟩)
      simp [List.filter_cons, hx, hnil]
    · have h' : Store.has xs o = true := by
        rw [Store.has_iff_key_mem] at h ⊢
        simp only [List.map_cons, List.mem_cons] at h
        rcases h with h | h
        · exact absurd h.symm hx
        · exact h
      simp only [List.filter_cons, hx, decide_False, Bool.false_eq_true, if_false]
      exact ih hw.2 h'

/-- C8: on a store whose `Create` adds an absent object and answers `AlreadyExists` for a
present one, `createOrUpdateUserResources` returns nil; run a second time it returns nil
again and leaves the store as the first run left it; and, the store filing at most one
object per key, it then files exactly one object under the key of the namespace, one
under the key of the ConfigMap and one under the key of the Pod. -/
theorem createOrUpdate_idempotent (dir : Directory) (u : LdapUser) (st : Store) :
    (createOrUpdateUserResources (clusterEnv dir) u st).1 = none ∧
    createOrUpdateUserResources (clusterEnv dir) u
        (createOrUpdateUserResources (clusterEnv dir) u st).2 =
      (none, (createOrUpdateUserResources (clusterEnv dir) u st).2) ∧
    (st.WF →
      ((createOrUpdateUserResources (clusterEnv dir) u st).2.filter
        (fun x => decide (x.key = (nsObject u).key))).length = 1 ∧
      ((createOrUpdateUserResources (clusterEnv dir) u st).2.filter
        (fun x => decide (x.key = (cmObject u).key))).length = 1 ∧
      ((createOrUpdateUserResources (clusterEnv dir) u st).2.filter
        (fun x => decide (x.key = (podObject u).key))).length = 1) := by
  have run : ∀ t : Store,
      createOrUpdateUserResources (clusterEnv dir) u t =
        (none, ((clusterEnv dir).Create (podObject u) ((clusterEnv dir).Create (cmObject u)
          ((clusterEnv dir).Create (nsObject u) t).2).2).2) := by
    intro t
    unfold createOrUpdateUserResources
    simp only [(cluster_Create_spec dir _ _).1]
  obtain ⟨-, n1, -, n3, -⟩ := cluster_Create_spec dir (nsObject u) st
  obtain ⟨-, c1, c2, c3, -⟩ := cluster_Create_spec dir (cmObject u)
    ((clusterEnv dir).Create (nsObject u) st).2
  obtain ⟨-, p1, p2, p3, -⟩ := cluster_Create_spec dir (podObject u)
    ((clusterEnv dir).Create (cmObject u) ((clusterEnv dir).Create (nsObject u) st).2).2
  have hns := p2 _ (c2 _ n1)
  have hcm := p2 _ c1
  refine ⟨by rw [run], ?_, ?_⟩
  · rw [run st, run]
    simp only [Prod.mk.injEq, true_and]
    rw [(cluster_Create_spec dir (nsObject u) _).2.2.2.2 hns,
      (cluster_Create_spec dir (cmObject u) _).2.2.2.2 hcm,
      (cluster_Create_spec dir (podObject u) _).2.2.2.2 p1]
  · intro hw
    have hwf := p3 (c3 (n3 hw))
    rw [run]
    exact ⟨count_key_eq_one _ _ hwf hns, count_key_eq_one _ _ hwf hcm,
      count_key_eq_one _ _ hwf p1⟩

/-- C8 at the key `dave` on a store that holds the namespace of `dave` already. -/
theorem createOrUpdate_idempotent_witness :
    ((createOrUpdateUserResources (clusterEnv (directoryOf ["dave"])) (newLDAPUser "dave")
        [nsObject (newLDAPUser "dave")]).2.filter
        (fun x => decide (x.key = (nsObject (newLDAPUser "dave")).key))).length = 1 ∧
      ((createOrUpdateUserResources (clusterEnv (directoryOf ["dave"])) (newLDAPUser "dave")
        [nsObject (newLDAPUser "dave")]).2.filter
        (fun x => decide (x.key = (cmObject (newLDAPUser "dave")).key))).length = 1 ∧
      ((createOrUpdateUserResources (clusterEnv (directoryOf ["dave"])) (newLDAPUser "dave")
        [nsObject (newLDAPUser "dave")]).2.filter
        (fun x => decide (x.key = (podObject (newLDAPUser "dave")).key))).length = 1 :=
  (createOrUpdate_idempotent (directoryOf ["dave"]) (newLDAPUser "dave")
    [nsObject (newLDAPUser "dave")]).2.2 (by decide)

theorem mem_ldapUsers (st : Store) (u : LdapUser) :
    u ∈ Store.ldapUsers st ↔ Object.ldapUser u ∈ st := by
  induction st with
  | nil => simp [Store.ldapUsers]
  | cons x xs ih =>
    cases x <;> simp [Store.ldapUsers, ih]

theorem cluster_issue_creates (dir : Directory) (os : List Object) (st : Store)
    (h : (issue (clusterEnv dir) (os.map Mutation.create) st).1 = none) :
    (issue (clusterEnv dir) (os.map Mutation.create) st).2 = st ++ os := by
  induction os generalizing st with
  | nil => simp [issue]
  | cons o os ih =>
    by_cases ho : st.has o = true
    · have hc : (clusterEnv dir).Create o st = (some .alreadyExists, st) := by
        rw [cluster_Create, if_pos ho]
      simp [issue, perform, hc] at h
    · have hc : (clusterEnv dir).Create o st = (none, st ++ [o]) := by
        rw [cluster_Create, if_neg ho]
      simp only [List.map_cons, issue, perform, hc] at h ⊢
      rw [ih _ h]
      simp

theorem cluster_issue_deletes (dir : Directory) (os : List Object) (st : Store)
    (hk : ∀ o ∈ os, o.kind ≠ Kind.Namespace)
    (h : (issue (clusterEnv dir) (os.map Mutation.delete) st).1 = none) :
    (issue (clusterEnv dir) (os.map Mutation.delete) st).2 =
      st.filter (fun x => decide (∀ o ∈ os, x.key ≠ o.key)) := by
  induction os generalizing st with
  | nil => simp [issue]
  | cons o os ih =>
    have hko : o.kind ≠ Kind.Namespace := hk o (List.mem_cons_self _ _)
    have hk' : ∀ o' ∈ os, o'.kind ≠ Kind.Namespace :=
      fun o' ho' => hk o' (List.mem_cons_of_mem _ ho')
    by_cases ho : st.has o = true
    · have hc : (clusterEnv dir).Delete o st = (none, st.filter (fun x => x.key != o.key)) := by
        rw [cluster_Delete, if_pos ho]
        simp only [goesWith_of_not_ns o _ hko, bne]
      simp only [List.map_cons, issue, perform, hc] at h ⊢
      rw [ih _ hk' h, List.filter_filter]
      apply List.filter_congr
      intro x _
      simp only [List.mem_cons, forall_eq_or_imp, bne_iff_ne, ne_eq]
      by_cases h1 : x.key = o.key <;> simp [h1]
    · have hc : (clusterEnv dir).Delete o st = (some .notFound, st) := by
        rw [cluster_Delete, if_neg ho]
      simp [issue, perform, hc] at h

theorem cluster_retrieve_state (dir : Directory) (st : Store) :
    (retrieveLdapUsers (clusterEnv dir) st).2 = st := by
  unfold retrieveLdapUsers
  simp only [clusterEnv]
  split
  · rfl
  · split
    · rfl
    · split <;> rfl

theorem issue_append_none (e : Env σ) (a b : List Mutation) (s : σ)
    (h : (issue e (a ++ b) s).1 = none) :
    (issue e a s).1 = none ∧ (issue e b (issue e a s).2).1 = none ∧
      (issue e (a ++ b) s).2 = (issue e b (issue e a s).2).2 := by
  rw [issue_append] at h ⊢
  revert h
  cases (issue e a s).1 with
  | some err => intro h; cases h
  | none => intro h; exact ⟨rfl, h, rfl⟩

/-- The store a bulk pass that returned nil leaves behind: the objects it held and the
records created, without the objects filed under the key of a deleted record. -/
theorem cluster_sync_state (dir : Directory) (order : List String → List String)
    (st : Store) (A : GoMap Unit)
    (hA : (retrieveLdapUsers (clusterEnv dir) st).1 = .ok A)
    (hnil : (SyncLdapUsers (clusterEnv dir) order st).1 = none) :
    (SyncLdapUsers (clusterEnv dir) order st).2 =
      (st ++ ((order A.keys).filter
          (fun k => decide (k ∉ st.ldapUsers.map (fun u => u.Name)))).map
          (fun k => Object.ldapUser (newLDAPUser k))).filter
        (fun (x : Object) => decide (∀ o ∈ (st.ldapUsers.filter
          (fun (u : LdapUser) => decide (u.Spec.Username ∉ A.keys))).map Object.ldapUser,
            x.key ≠ o.key)) := by
  have hst : ((clusterEnv dir).List (retrieveLdapUsers (clusterEnv dir) st).2).2 = st := by
    rw [cluster_retrieve_state]; rfl
  have hB : ((clusterEnv dir).List (retrieveLdapUsers (clusterEnv dir) st).2).1 =
      .ok st.ldapUsers := by
    rw [cluster_retrieve_state]; rfl
  have hs := sync_eq_issue (clusterEnv dir) order st A st.ldapUsers hA hB
  rw [hst, plan_eq] at hs
  have hmapc : ∀ l : List String,
      l.map (fun k => Mutation.create (Object.ldapUser (newLDAPUser k))) =
        (l.map (fun k => Object.ldapUser (newLDAPUser k))).map Mutation.create := by
    intro l; rw [List.map_map]; rfl
  have hmapd : ∀ l : List LdapUser,
      l.map (fun u => Mutation.delete (Object.ldapUser u)) =
        (l.map Object.ldapUser).map Mutation.delete := by
    intro l; rw [List.map_map]; rfl
  rw [hmapc, hmapd] at hs
  rw [hs] at hnil ⊢
  obtain ⟨hc, hd, hfin⟩ := issue_append_none _ _ _ _ hnil
  rw [hfin]
  rw [cluster_issue_creates dir _ _ hc] at hd ⊢
  refine cluster_issue_deletes dir _ _ ?_ hd
  intro o ho
  obtain ⟨d, -, rfl⟩ := List.mem_map.1 ho
  simp [Object.kind]

/-- C1 fails: with the record named `x` of user `alice` in the registry and `alice` in the
directory, the pass creates the record `alice`, deletes nothing and returns nil, and the
registry then holds the name `x`, which is no directory key. -/
theorem sync_keeps_misnamed_record :
    ¬ ((SyncLdapUsers (clusterEnv (directoryOf ["alice"])) id
          [.ldapUser misnamedRecord]).1 =
          none →
        ∀ k, k ∈ (SyncLdapUsers (clusterEnv (directoryOf ["alice"])) id
            [.ldapUser misnamedRecord]).2.ldapUsers.map (fun u => u.Name) ↔
          k ∈ (collectUids (["alice"].map userEntry)).keys) := by
  intro h
  have h1 := (h (by decide) "x").1 (by decide)
  revert h1
  decide

/-- C1, amended: when each record of the registry is named after its user and
`SyncLdapUsers` returns nil, the names of the records the registry then holds are exactly
the keys of the directory snapshot. -/
theorem sync_registry_equals_directory (dir : Directory) (order : List String → List String)
    (st : Store) (A : GoMap Unit)
    (horder : ∀ l, (order l).Perm l)
    (hA : (retrieveLdapUsers (clusterEnv dir) st).1 = .ok A)
    (hname : ∀ u ∈ st.ldapUsers, u.Name = u.Spec.Username)
    (hnil : (SyncLdapUsers (clusterEnv dir) order st).1 = none) :
    ∀ k, k ∈ (SyncLdapUsers (clusterEnv dir) order st).2.ldapUsers.map (fun u => u.Name) ↔
      k ∈ A.keys := by
  intro k
  rw [cluster_sync_state dir order st A hA hnil]
  have hmem : ∀ k, k ∈ order A.keys ↔ k ∈ A.keys := fun k => (horder A.keys).mem_iff
  have hkey : ∀ v w : LdapUser, (Object.ldapUser v).key = (Object.ldapUser w).key →
      v.Name = w.Name := by
    intro v w h
    simp only [Object.key, Object.om, Prod.mk.injEq] at h
    exact h.2.2
  have hfilt : ∀ x : Object, x ∈ (st ++ ((order A.keys).filter
          (fun k => decide (k ∉ st.ldapUsers.map (fun u => u.Name)))).map
          (fun k => Object.ldapUser (newLDAPUser k))).filter
        (fun (x : Object) => decide (∀ o ∈ (st.ldapUsers.filter
          (fun (u : LdapUser) => decide (u.Spec.Username ∉ A.keys))).map Object.ldapUser,
            x.key ≠ o.key)) ↔
      (x ∈ st ∨ ∃ c, c ∈ A.keys ∧ (∀ w ∈ st.ldapUsers, w.Name ≠ c) ∧
          x = Object.ldapUser (newLDAPUser c)) ∧
        ∀ d ∈ st.ldapUsers, d.Spec.Username ∉ A.keys → x.key ≠ (Object.ldapUser d).key := by
    intro x
    simp only [List.mem_filter, List.mem_append, List.mem_map, decide_eq_true_eq, hmem,
      forall_exists_index, and_imp, not_exists, not_and, ne_eq]
    constructor
    · rintro ⟨h1, h2⟩
      refine ⟨?_, fun d hd hdA => h2 _ d hd hdA rfl⟩
      rcases h1 with h1 | ⟨c, ⟨hc1, hc2⟩, rfl⟩
      · exact Or.inl h1
      · exact Or.inr ⟨c, hc1, hc2, rfl⟩
    · rintro ⟨h1, h2⟩
      refine ⟨?_, ?_⟩
      · rcases h1 with h1 | ⟨c, hc1, hc2, rfl⟩
        · exact Or.inl h1
        · exact Or.inr ⟨c, ⟨hc1, hc2⟩, rfl⟩
      · rintro o d hd hdA rfl
        exact h2 d hd hdA
  rw [List.mem_map]
  constructor
  · rintro ⟨w, hw, rfl⟩
    obtain ⟨hw1, hdel⟩ := (hfilt _).1 ((mem_ldapUsers _ w).1 hw)
    rcases hw1 with hw1 | ⟨c, hc, -, hcw⟩
    · have hwB := (mem_ldapUsers st w).2 hw1
      by_contra hk
      have hk' : w.Spec.Username ∉ A.keys := by rw [← hname w hwB]; exact hk
      exact hdel w hwB hk' rfl
    · simp only [Object.ldapUser.injEq] at hcw
      subst hcw
      exact hc
  · intro hk
    by_cases hB : ∃ w, w ∈ st.ldapUsers ∧ w.Name = k
    · obtain ⟨w, hw, hwk⟩ := hB
      refine ⟨w, (mem_ldapUsers _ w).2 ((hfilt _).2 ⟨Or.inl ((mem_ldapUsers st w).1 hw), ?_⟩),
        hwk⟩
      intro d hdB hdA hEq
      have : d.Name = k := (hkey w d hEq).symm.trans hwk
      exact hdA (by rw [← hname d hdB, this]; exact hk)
    · refine ⟨newLDAPUser k, (mem_ldapUsers _ _).2 ((hfilt _).2
        ⟨Or.inr ⟨k, hk, ?_, rfl⟩, ?_⟩), rfl⟩
      · intro w hw hwk
        exact hB ⟨w, hw, hwk⟩
      · intro d hdB hdA hEq
        have : d.Name = k := (hkey (newLDAPUser k) d hEq).symm
        exact hdA (by rw [← hname d hdB, this]; exact hk)

/-- C1, amended, at directory `alice`, `bob` and registry `bob`, `carol`: afterwards the
registry holds `alice` exactly as the directory does, and `carol` exactly as the
directory does. -/
theorem sync_registry_equals_directory_witness :
    ("alice" ∈ (SyncLdapUsers (clusterEnv (directoryOf ["alice", "bob"])) id
        [.ldapUser (newLDAPUser "bob"), .ldapUser (newLDAPUser "carol")]).2.ldapUsers.map
          (fun u => u.Name) ↔
      "alice" ∈ (collectUids (["alice", "bob"].map userEntry)).keys) ∧
    ("carol" ∈ (SyncLdapUsers (clusterEnv (directoryOf ["alice", "bob"])) id
        [.ldapUser (newLDAPUser "bob"), .ldapUser (newLDAPUser "carol")]).2.ldapUsers.map
          (fun u => u.Name) ↔
      "carol" ∈ (collectUids (["alice", "bob"].map userEntry)).keys) :=
  ⟨sync_registry_equals_directory (directoryOf ["alice", "bob"]) id
      [.ldapUser (newLDAPUser "bob"), .ldapUser (newLDAPUser "carol")]
      (collectUids (["alice", "bob"].map userEntry))
      (fun l => List.Perm.refl l) rfl (by decide) (by decide) "alice",
    sync_registry_equals_directory (directoryOf ["alice", "bob"]) id
      [.ldapUser (newLDAPUser "bob"), .ldapUser (newLDAPUser "carol")]
      (collectUids (["alice", "bob"].map userEntry))
      (fun l => List.Perm.refl l) rfl (by decide) (by decide) "carol"⟩

/-! ## The reconciler on the concrete store -/

theorem goesWith_ns_ldapUser (om : ObjectMeta) (v : LdapUser) :
    (Object.ns om).goesWith (Object.ldapUser v) = (v.Namespace == om.Name) := by
  have hk : ((Object.ldapUser v).key == (Object.ns om).key) = false := by
    rw [← Bool.not_eq_true, beq_iff_eq]
    intro h
    simp [Object.key, Object.kind] at h
  have h1 : (Object.ns om).kind = Kind.Namespace := rfl
  have h2 : (Object.ldapUser v).kind = Kind.LdapUser := rfl
  have h3 : (Object.ldapUser v).om.Namespace = v.Namespace := rfl
  have h4 : (Object.ns om).om.Name = om.Name := rfl
  rw [Object.goesWith, hk, h1, h2, h3, h4]
  simp

theorem ldapUsers_filter_ns (st : Store) (om : ObjectMeta) :
    Store.ldapUsers (st.filter (fun x => !(Object.ns om).goesWith x)) =
      (Store.ldapUsers st).filter (fun v => !(v.Namespace == om.Name)) := by
  induction st with
  | nil => rfl
  | cons x xs ih =>
    cases x with
    | ldapUser v =>
      rw [List.filter_cons, goesWith_ns_ldapUser]
      simp only [Store.ldapUsers, List.filter_cons]
      split <;> simp only [Store.ldapUsers, ih]
    | ns om' =>
      rw [List.filter_cons]
      split <;> simp only [Store.ldapUsers, ih]
    | configMap om' d =>
      rw [List.filter_cons]
      split <;> simp only [Store.ldapUsers, ih]
    | pod om' c =>
      rw [List.filter_cons]
      split <;> simp only [Store.ldapUsers, ih]

theorem has_filter_goesWith (st : Store) (o : Object) :
    Store.has (st.filter (fun x => !o.goesWith x)) o = false := by
  rw [← Bool.not_eq_true, Store.has_iff_key_mem]
  simp only [List.mem_map, List.mem_filter, not_exists, not_and, and_imp, Bool.not_eq_true']
  intro x _ hx hEq
  simp [Object.goesWith, hEq] at hx

theorem cluster_Delete_absorbed (dir : Directory) (o : Object) (st : Store) :
    errUnless IsNotFound ((clusterEnv dir).Delete o st).1 = none := by
  rw [cluster_Delete]
  by_cases h : st.has o = true
  · rw [if_pos h]; rfl
  · rw [if_neg h]; rfl

theorem find?_filter_keep {α : Type} (p q : α → Bool) (l : List α) (u : α)
    (h : l.find? q = some u) (hp : p u = true) : (l.filter p).find? q = some u := by
  induction l with
  | nil => simp at h
  | cons x xs ih =>
    rw [List.find?_cons] at h
    by_cases hq : q x = true
    · simp only [hq, Option.some.injEq] at h
      subst h
      rw [List.filter_cons, if_pos hp, List.find?_cons, hq]
    · have hq' : q x = false := by simpa using hq
      simp only [hq'] at h
      rw [List.filter_cons]
      split
      · rw [List.find?_cons, hq']; exact ih h
      · exact ih h

theorem cluster_reconcile_absent (dir : Directory) (req : NamespacedName) (st : Store)
    (u : LdapUser)
    (hget : st.ldapUsers.find?
      (fun v => v.Namespace == req.Namespace && v.Name == req.Name) = some u)
    (hdial : dir.dial = none) (hbind : dir.bind = none)
    (hsearch : dir.search (userSearchRequest u) = .ok []) :
    Reconcile (clusterEnv dir) req st =
      (({ Requeue := false, RequeueAfter := 0 }, none),
        ((clusterEnv dir).Delete (nsObject u) st).2) := by
  have hG : (clusterEnv dir).Get req st = (.ok u, st) := by
    simp only [clusterEnv, hget]
  have hD : ∀ a t, (clusterEnv dir).Dial a t = (none, t) := by
    intro a t; simp only [clusterEnv, hdial]
  have hB : ∀ a b t, (clusterEnv dir).Bind a b t = (none, t) := by
    intro a b t; simp only [clusterEnv, hbind]
  have hS : ∀ t, (clusterEnv dir).Search (userSearchRequest u) t = (.ok [], t) := by
    intro t; simp only [clusterEnv, hsearch]
  have hC : ∀ t, (clusterEnv dir).Close t = t := fun _ => rfl
  unfold Reconcile reconcileConnected deleteUserResources
  simp only [hG, hD, hB, hS, hC, List.length_nil, if_true, cluster_Delete_absorbed]

theorem cluster_reconcile_gone (dir : Directory) (req : NamespacedName) (st : Store)
    (hget : st.ldapUsers.find?
      (fun v => v.Namespace == req.Namespace && v.Name == req.Name) = none) :
    Reconcile (clusterEnv dir) req st =
      (({ Requeue := false, RequeueAfter := 0 }, none), st) := by
  have hG : (clusterEnv dir).Get req st = (.error .notFound, st) := by
    simp only [clusterEnv, hget]
  unfold Reconcile
  simp only [hG, IsNotFound, if_true]

/-- What `Reconcile` leaves behind on the concrete store when the directory search finds
nothing for the record. -/
theorem cluster_reconcile_absent_spec (dir : Directory) (req : NamespacedName) (st : Store)
    (u : LdapUser)
    (hget : st.ldapUsers.find?
      (fun v => v.Namespace == req.Namespace && v.Name == req.Name) = some u)
    (hdial : dir.dial = none) (hbind : dir.bind = none)
    (hsearch : dir.search (userSearchRequest u) = .ok []) :
    ∃ fin : Store,
      Reconcile (clusterEnv dir) req st =
        (({ Requeue := false, RequeueAfter := 0 }, none), fin) ∧
      fin.has (nsObject u) = false ∧
      ((∀ x ∈ st, x.kind ≠ Kind.Namespace → x.om.Namespace = u.Spec.Username →
          st.has (nsObject u) = true) →
        ∀ x ∈ fin, x.kind ≠ Kind.Namespace → x.om.Namespace ≠ u.Spec.Username) ∧
      (∀ v, v.Namespace ≠ u.Spec.Username → (v ∈ fin.ldapUsers ↔ v ∈ st.ldapUsers)) ∧
      Reconcile (clusterEnv dir) req fin =
        (({ Requeue := false, RequeueAfter := 0 }, none), fin) := by
  have hrun := cluster_reconcile_absent dir req st u hget hdial hbind hsearch
  by_cases hns : st.has (nsObject u) = true
  · have hD : ((clusterEnv dir).Delete (nsObject u) st).2 =
        st.filter (fun x => !(nsObject u).goesWith x) := by
      rw [cluster_Delete, if_pos hns]
    have hfin : Store.has (st.filter (fun x => !(nsObject u).goesWith x)) (nsObject u) = false :=
      has_filter_goesWith st _
    have hl : Store.ldapUsers (st.filter (fun x => !(nsObject u).goesWith x)) =
        (Store.ldapUsers st).filter (fun v => !(v.Namespace == u.Spec.Username)) :=
      ldapUsers_filter_ns st _
    have hnf : ∀ t : Store, t.has (nsObject u) = false →
        ((clusterEnv dir).Delete (nsObject u) t).2 = t := by
      intro t ht
      rw [cluster_Delete, if_neg (by rw [ht]; simp)]
    rw [hD] at hrun
    refine ⟨_, hrun, hfin, ?_, ?_, ?_⟩
    · intro _ x hx hk hEq
      have hkeep := (List.mem_filter.1 hx).2
      have h1 : (nsObject u).kind = Kind.Namespace := rfl
      have h2 : (nsObject u).om.Name = u.Spec.Username := rfl
      simp [Object.goesWith, h1, h2, hk, hEq] at hkeep
    · intro v hv
      rw [hl, List.mem_filter]
      simp [hv]
    · by_cases hu : u.Namespace = u.Spec.Username
      · apply cluster_reconcile_gone
        rw [hl, List.find?_eq_none]
        intro v hv
        have hvn := (List.mem_filter.1 hv).2
        have hreq := List.find?_some hget
        simp only [Bool.and_eq_true, beq_iff_eq] at hreq
        simp only [Bool.and_eq_true, beq_iff_eq, not_and]
        intro h1
        exfalso
        rw [h1, ← hreq.1, hu] at hvn
        simp at hvn
      · have hget' : (Store.ldapUsers (st.filter (fun x => !(nsObject u).goesWith x))).find?
            (fun v => v.Namespace == req.Namespace && v.Name == req.Name) = some u := by
          rw [hl]
          exact find?_filter_keep _ _ _ _ hget (by simpa using hu)
        rw [cluster_reconcile_absent dir req _ u hget' hdial hbind hsearch, hnf _ hfin]
  · have hns' : st.has (nsObject u) = false := by simpa using hns
    have hD : ((clusterEnv dir).Delete (nsObject u) st).2 = st := by
      rw [cluster_Delete, if_neg hns]
    rw [hD] at hrun
    refine ⟨st, hrun, hns', ?_, fun v _ => Iff.rfl, hrun⟩
    intro hsc x hx hk hEq
    exact hns (hsc x hx hk hEq)

/-- C6 fails: with the record of `alice` in the registry, her bundle in the store and no
`alice` in the directory, `Reconcile` returns nil and the record of `alice` is still in
the registry. -/
theorem reconcile_keeps_record :
    ¬ ((Reconcile (clusterEnv (directoryOf [])) { Namespace := "ldap-space", Name := "alice" }
          [.ldapUser (newLDAPUser "alice"), nsObject (newLDAPUser "alice"),
           cmObject (newLDAPUser "alice"), podObject (newLDAPUser "alice")]).1 =
          ({ Requeue := false, RequeueAfter := 0 }, none) →
        newLDAPUser "alice" ∉
          (Reconcile (clusterEnv (directoryOf [])) { Namespace := "ldap-space", Name := "alice" }
            [.ldapUser (newLDAPUser "alice"), nsObject (newLDAPUser "alice"),
             cmObject (newLDAPUser "alice"), podObject (newLDAPUser "alice")]).2.ldapUsers) := by
  decide

/-- C6, amended: for a record the registry holds whose user the directory search does not
find, `Reconcile` returns the empty result and nil.  Afterwards the store holds no
namespace named after the key; provided every object of namespace `<key>` lived in an
existing namespace, nothing is left in namespace `<key>`, the ConfigMap `<key>-config`
included; the records that live outside namespace `<key>` are the ones the registry held
before, so the record itself is still there unless it lived in namespace `<key>`; and
running `Reconcile` again, any number of times, leaves that same store and returns nil
again. -/
theorem reconcile_absent_user_removes_namespace (dir : Directory) (req : NamespacedName)
    (st : Store) (u : LdapUser)
    (hget : st.ldapUsers.find?
      (fun v => v.Namespace == req.Namespace && v.Name == req.Name) = some u)
    (hdial : dir.dial = none) (hbind : dir.bind = none)
    (hsearch : dir.search (userSearchRequest u) = .ok []) :
    (Reconcile (clusterEnv dir) req st).1 = ({ Requeue := false, RequeueAfter := 0 }, none) ∧
    (Reconcile (clusterEnv dir) req st).2.has (nsObject u) = false ∧
    ((∀ x ∈ st, x.kind ≠ Kind.Namespace → x.om.Namespace = u.Spec.Username →
        st.has (nsObject u) = true) →
      (∀ x ∈ (Reconcile (clusterEnv dir) req st).2,
        x.kind ≠ Kind.Namespace → x.om.Namespace ≠ u.Spec.Username) ∧
      (Reconcile (clusterEnv dir) req st).2.has (cmObject u) = false) ∧
    (∀ v : LdapUser, v.Namespace ≠ u.Spec.Username →
      (v ∈ (Reconcile (clusterEnv dir) req st).2.ldapUsers ↔ v ∈ st.ldapUsers)) ∧
    (u.Namespace ≠ u.Spec.Username → u ∈ (Reconcile (clusterEnv dir) req st).2.ldapUsers) ∧
    Reconcile (clusterEnv dir) req (Reconcile (clusterEnv dir) req st).2 =
      (({ Requeue := false, RequeueAfter := 0 }, none), (Reconcile (clusterEnv dir) req st).2) ∧
    ∀ n : Nat, (fun t => (Reconcile (clusterEnv dir) req t).2)^[n]
      (Reconcile (clusterEnv dir) req st).2 = (Reconcile (clusterEnv dir) req st).2 := by
  obtain ⟨fin, hrun, hns, hscoped, hrec, hagain⟩ :=
    cluster_reconcile_absent_spec dir req st u hget hdial hbind hsearch
  rw [hrun]
  refine ⟨rfl, hns, ?_, hrec, ?_, hagain, ?_⟩
  · intro hsc
    have hall := hscoped hsc
    refine ⟨hall, ?_⟩
    rw [← Bool.not_eq_true, Store.has_iff_key_mem]
    intro hmem
    obtain ⟨x, hx, hkey⟩ := List.mem_map.1 hmem
    have hk : x.kind = Kind.ConfigMap := congrArg Prod.fst hkey
    have hn : x.om.Namespace = u.Spec.Username := congrArg (fun k => k.2.1) hkey
    exact hall x hx (by rw [hk]; decide) hn
  · intro hu
    exact (hrec u hu).2 (List.mem_of_find?_eq_some hget)
  · intro n
    apply Function.iterate_fixed
    simp only [hagain]

/-- C6, amended, at the record of `alice` with her bundle in the store and an empty
directory: afterwards the namespace `alice` and the ConfigMap `alice-config` are gone and
the record of `alice` is still in the registry. -/
theorem reconcile_absent_user_removes_namespace_witness :
    (Reconcile (clusterEnv (directoryOf [])) { Namespace := "ldap-space", Name := "alice" }
        [.ldapUser (newLDAPUser "alice"), nsObject (newLDAPUser "alice"),
         cmObject (newLDAPUser "alice"), podObject (newLDAPUser "alice")]).2.has
          (nsObject (newLDAPUser "alice")) = false ∧
      (Reconcile (clusterEnv (directoryOf [])) { Namespace := "ldap-space", Name := "alice" }
        [.ldapUser (newLDAPUser "alice"), nsObject (newLDAPUser "alice"),
         cmObject (newLDAPUser "alice"), podObject (newLDAPUser "alice")]).2.has
          (cmObject (newLDAPUser "alice")) = false ∧
      newLDAPUser "alice" ∈
        (Reconcile (clusterEnv (directoryOf [])) { Namespace := "ldap-space", Name := "alice" }
          [.ldapUser (newLDAPUser "alice"), nsObject (newLDAPUser "alice"),
           cmObject (newLDAPUser "alice"), podObject (newLDAPUser "alice")]).2.ldapUsers :=
  have T := reconcile_absent_user_removes_namespace (directoryOf [])
    { Namespace := "ldap-space", Name := "alice" }
    [.ldapUser (newLDAPUser "alice"), nsObject (newLDAPUser "alice"),
     cmObject (newLDAPUser "alice"), podObject (newLDAPUser "alice")]
    (newLDAPUser "alice") (by decide) rfl rfl rfl
  ⟨T.2.1, (T.2.2.1 (by decide)).2, T.2.2.2.2.1 (by decide)⟩

end LdapOperator
